import Mathlib

/-!
Verification of the citation-checking core of `reference_checker.py`.

Strings are modelled as `List Char` (`str s` turns a Lean string literal into
one).  The model fixes the following conventions, matching the inputs the
program processes (document lines, which are newline-free and ASCII in all
regex-relevant positions):

* Python `\s` is modelled by the six ASCII whitespace characters;
* Python `\w` is modelled by ASCII letters, digits and underscore;
* Python's `$` anchor is modelled as end-of-string and regex `.` as "any
  character" (lines never contain a newline);
* Python's `str.lower`/`str.strip` are modelled by their ASCII restrictions.

Every regular expression of the source is implemented as an explicit scanning
function whose comment cites the Python pattern; leftmost-match, greediness
and backtracking behaviour are reproduced (in the many places where a greedy
run is followed by a character outside the run's class, backtracking cannot
succeed, so the maximal run is the only candidate; this is noted where used).

Python exceptions are modelled with `Option`: the only reachable failure in
the embedded fragment is the `IndexError` in the matcher's year-less branch
(`ref_author.split()[0]` on an empty key), and `match_citations_to_references`
returns `none` exactly there.  All other embedded functions are total, as the
source's "degrade, don't fail" design demands.
-/

/-- Strings of the Python source, modelled as lists of characters. -/
def str (s : String) : List Char := s.data

/-- Python `\s` (ASCII fragment): space, tab, newline, carriage return,
vertical tab, form feed. -/
def isSpacePy (c : Char) : Bool :=
  c = ' ' ∨ c = '\t' ∨ c = '\n' ∨ c = '\x0d' ∨ c = '\x0b' ∨ c = '\x0c'

/-- Regex class `[A-Z]`. -/
def isUpperAZ (c : Char) : Bool := 'A' ≤ c ∧ c ≤ 'Z'

/-- Regex class `[a-z]`. -/
def isLowerAZ (c : Char) : Bool := 'a' ≤ c ∧ c ≤ 'z'

/-- Regex class `\d` = `[0-9]`. -/
def isDigitCh (c : Char) : Bool := '0' ≤ c ∧ c ≤ '9'

/-- Regex class `[a-zA-Z]`. -/
def isAlphaCh (c : Char) : Bool := isUpperAZ c ∨ isLowerAZ c

/-- Regex class `\w` (ASCII fragment): letters, digits, underscore. -/
def isWordCh (c : Char) : Bool := isAlphaCh c ∨ isDigitCh c ∨ c = '_'

/-- Python `str.lower` on one character (ASCII fragment). -/
def toLowerPy (c : Char) : Char :=
  if isUpperAZ c then Char.ofNat (c.toNat + 32) else c

/-- Python `str.lower`. -/
def lowerStr (l : List Char) : List Char := l.map toLowerPy

/-- Case-insensitive comparison of one character against a lowercase
pattern letter (regex `re.IGNORECASE`, ASCII fragment). -/
def ciIs (c target : Char) : Bool := toLowerPy c = target

/-- Python `str.strip()`: remove leading and trailing whitespace. -/
def stripPy (l : List Char) : List Char :=
  ((l.dropWhile isSpacePy).reverse.dropWhile isSpacePy).reverse

/-- Remove the trailing run of characters satisfying `p`
(used for `rstrip` and for `$`-anchored trailing-class substitutions). -/
def rstripP (p : Char → Bool) (l : List Char) : List Char :=
  (l.reverse.dropWhile p).reverse

/-- Python `str.split()`, fuel-indexed (the wrapper passes the input
length; every step consumes at least one character, so with that fuel the
exhaustion branch is unreachable). -/
def wordsOfGo : Nat → List Char → List (List Char)
  | _, [] => []
  | 0, _ => []
  | fuel + 1, c :: rest =>
    if isSpacePy c then wordsOfGo fuel rest
    else (c :: rest.takeWhile (fun d => ¬ isSpacePy d)) ::
            wordsOfGo fuel (rest.dropWhile (fun d => ¬ isSpacePy d))

/-- Python `str.split()` (split on whitespace runs, no empty words). -/
def wordsOf (l : List Char) : List (List Char) := wordsOfGo l.length l

/-- Python `' '.join(words)`. -/
def joinWords : List (List Char) → List Char
  | [] => []
  | [w] => w
  | w :: ws => w ++ ' ' :: joinWords ws

/-- Python `str.split(',')` (keeps empty segments). -/
def splitOnComma : List Char → List (List Char)
  | [] => [[]]
  | c :: rest =>
    if c = ',' then [] :: splitOnComma rest
    else
      match splitOnComma rest with
      | s :: ss => (c :: s) :: ss
      | [] => [[c]]

/-- Python `haystack.find(needle)`, as `Option`-valued index of the leftmost
occurrence (`none` models the return value `-1`). -/
def strFindAux (needle : List Char) (l : List Char) (i : Nat) : Option Nat :=
  if needle.isPrefixOf l then some i
  else
    match l with
    | [] => none
    | _ :: t => strFindAux needle t (i + 1)

/-- Python `haystack.find(needle)` (leftmost index, `none` for `-1`). -/
def strFind (l needle : List Char) : Option Nat := strFindAux needle l 0

/-- Python `haystack.rfind(needle)`: index of the rightmost occurrence. -/
def strRfind (l needle : List Char) : Option Nat :=
  ((List.range (l.length + 1)).filter
      (fun i => needle.isPrefixOf (l.drop i))).getLast?

/-- `l.drop` past the maximal whitespace run (regex `\s*`, greedy). -/
def dropWsRun (l : List Char) : List Char := l.dropWhile isSpacePy

/-- A matcher result: the remaining input together with the fact that at
least one character was consumed (used for termination of the scanners that
resume after a match). -/
def Rem (l : List Char) : Type := {r : List Char // r.length < l.length}

/-- A matcher result that may have consumed nothing. -/
def RemLe (l : List Char) : Type := {r : List Char // r.length ≤ l.length}

/-- Consume one character satisfying `p` (a regex character class). -/
def eatCh (p : Char → Bool) : (l : List Char) → Option (Rem l)
  | [] => none
  | c :: rest => if p c then some ⟨rest, by simp⟩ else none

/-- Regex `\p+` for a character class `p`, greedy and followed by a pattern
item outside the class (so backtracking cannot shrink the run and exactly the
maximal nonempty run is consumed). -/
def eatRun1 (p : Char → Bool) : (l : List Char) → Option (Rem l)
  | [] => none
  | c :: rest =>
    if p c then
      some ⟨rest.dropWhile p, by
        have := (List.dropWhile_sublist (l := rest) p).length_le
        simp only [List.length_cons]; omega⟩
    else none

/-- Regex `\s+` in maximal-run position. -/
def eatWs1 : (l : List Char) → Option (Rem l) := eatRun1 isSpacePy

/-- Consume a case-insensitive literal (pattern given in lowercase). -/
def eatLitCI : (pat : List Char) → (l : List Char) → Option (RemLe l)
  | [], l => some ⟨l, le_refl _⟩
  | _ :: _, [] => none
  | p :: ps, c :: cs =>
    if ciIs c p then
      match eatLitCI ps cs with
      | none => none
      | some ⟨r, h⟩ => some ⟨r, by simp only [List.length_cons]; omega⟩
    else none

/-- Consume a case-sensitive literal. -/
def eatLit : (pat : List Char) → (l : List Char) → Option (RemLe l)
  | [], l => some ⟨l, le_refl _⟩
  | _ :: _, [] => none
  | p :: ps, c :: cs =>
    if c = p then
      match eatLit ps cs with
      | none => none
      | some ⟨r, h⟩ => some ⟨r, by simp only [List.length_cons]; omega⟩
    else none

/-- Regex `c?` for a single literal character, greedy (consume it when
present; correct whenever the following pattern item cannot match `c`). -/
def eatOptCh (ch : Char) (l : List Char) : RemLe l :=
  match l with
  | c :: rest => if c = ch then ⟨rest, by simp⟩ else ⟨c :: rest, le_refl _⟩
  | [] => ⟨[], le_refl _⟩

/-- Regex `\d{n}`: exactly `n` digits. -/
def eatDigitsN : (n : Nat) → (l : List Char) → Option (RemLe l)
  | 0, l => some ⟨l, le_refl _⟩
  | _ + 1, [] => none
  | n + 1, c :: cs =>
    if isDigitCh c then
      match eatDigitsN n cs with
      | none => none
      | some ⟨r, h⟩ => some ⟨r, by simp only [List.length_cons]; omega⟩
    else none

/-! ## Author and year normalization (`normalize_author`,
`extract_last_name_from_citation`, `normalize_year`) -/

/-- `re.sub(r'\([^)]*\)', '', text)`: delete every parenthesized chunk (an
opening parenthesis matches exactly when a closing one follows; the
match runs through the first `)` after it). -/
def removeParensGo : Nat → List Char → List Char
  | _, [] => []
  | 0, l => l
  | fuel + 1, c :: rest =>
    if c = '(' ∧ rest.contains ')' then
      removeParensGo fuel ((rest.dropWhile (fun d => d ≠ ')')).tail)
    else c :: removeParensGo fuel rest

/-- Wrapper supplying the fuel. -/
def removeParens (l : List Char) : List Char := removeParensGo l.length l

/-- Match of `\s+et\s+al\.?` (`re.IGNORECASE`) at the head of the input;
returns the remaining input.  Each `\s+` is maximal (the next item is a
letter), and the final `\.?` is greedy. -/
def matchEtAlAt (l : List Char) : Option (Rem l) :=
  match eatWs1 l with
  | none => none
  | some ⟨r1, h1⟩ =>
    match eatLitCI (str "et") r1 with
    | none => none
    | some ⟨r2, h2⟩ =>
      match eatWs1 r2 with
      | none => none
      | some ⟨r3, h3⟩ =>
        match eatLitCI (str "al") r3 with
        | none => none
        | some ⟨r4, h4⟩ =>
          some ⟨(eatOptCh '.' r4).1, by
            have := (eatOptCh '.' r4).2; omega⟩

/-- `re.sub(r'\s+et\s+al\.?', '', text, flags=re.IGNORECASE)`: leftmost
matches are removed and scanning resumes after each match. -/
def removeEtAlGo : Nat → List Char → List Char
  | _, [] => []
  | 0, l => l
  | fuel + 1, c :: rest =>
    match matchEtAlAt (c :: rest) with
    | some ⟨r, _⟩ => removeEtAlGo fuel r
    | none => c :: removeEtAlGo fuel rest

/-- Wrapper supplying the fuel. -/
def removeEtAl (l : List Char) : List Char := removeEtAlGo l.length l

/-- Match of `\s+&\s+|\s+and\s+` (`re.IGNORECASE`) at the head of the input.
The two alternatives are tried in order; in each, the leading `\s+` is
maximal (the next item is `&` or a letter) and the trailing `\s+` is maximal
(greedy). -/
def matchConnAt (l : List Char) : Option (Rem l) :=
  match eatWs1 l with
  | none => none
  | some ⟨r1, h1⟩ =>
    match eatCh (fun c => c = '&') r1 with
    | some ⟨r2, h2⟩ =>
      match eatWs1 r2 with
      | none => none
      | some ⟨r3, h3⟩ => some ⟨r3, by omega⟩
    | none =>
      match eatLitCI (str "and") r1 with
      | none => none
      | some ⟨r2, h2⟩ =>
        match eatWs1 r2 with
        | none => none
        | some ⟨r3, h3⟩ => some ⟨r3, by omega⟩

/-- `re.sub(r'\s+&\s+|\s+and\s+', ',', text, flags=re.IGNORECASE)`. -/
def replaceConnGo : Nat → List Char → List Char
  | _, [] => []
  | 0, l => l
  | fuel + 1, c :: rest =>
    match matchConnAt (c :: rest) with
    | some ⟨r, _⟩ => ',' :: replaceConnGo fuel r
    | none => c :: replaceConnGo fuel rest

/-- Wrapper supplying the fuel. -/
def replaceConn (l : List Char) : List Char := replaceConnGo l.length l

/-- Lookahead `(?=[\s,]|$)`. -/
def lookWsComma : List Char → Bool
  | [] => true
  | c :: _ => isSpacePy c ∨ c = ','

/-- Match of `[A-Z]\.?(?=[\s,]|$)` at the head of the input (the `\.?` is
greedy; when consuming the dot breaks the lookahead, skipping it cannot
restore it because `.` is not in `[\s,]`). -/
def matchCapDot : (l : List Char) → Option (Rem l)
  | [] => none
  | c :: rest =>
    if isUpperAZ c then
      match rest with
      | '.' :: r2 =>
        if lookWsComma r2 then some ⟨r2, by simp only [List.length_cons]; omega⟩
        else none
      | r =>
        if lookWsComma r then some ⟨r, by simp only [List.length_cons]; omega⟩
        else none
    else none

/-- Scanner for `re.sub(r'(?:^|[\s,])[A-Z]\.?(?=[\s,]|$)', ' ', segment)` at
positions after the start: a match consumes one `[\s,]` character plus the
initial, and is replaced by one space; the lookahead character is left for
the next round. -/
def removeInitialsGo : Nat → List Char → List Char
  | _, [] => []
  | 0, l => l
  | fuel + 1, c :: rest =>
    if isSpacePy c ∨ c = ',' then
      match matchCapDot rest with
      | some ⟨r, _⟩ => ' ' :: removeInitialsGo fuel r
      | none => c :: removeInitialsGo fuel rest
    else c :: removeInitialsGo fuel rest

/-- `re.sub(r'(?:^|[\s,])[A-Z]\.?(?=[\s,]|$)', ' ', segment)`: the `^`
alternative applies only at position 0. -/
def removeInitials (l : List Char) : List Char :=
  match matchCapDot l with
  | some ⟨r, _⟩ => ' ' :: removeInitialsGo r.length r
  | none => removeInitialsGo l.length l

/-- `normalize_author` (reference_checker.py:688): reduce an author string
to a space-joined, lowercased, order-preserving list of last names. -/
def normalize_author (author_text : List Char) : List Char :=
  let t1 := removeParens author_text
  let t2 := removeEtAl t1
  let t3 := replaceConn t2
  let segments := splitOnComma t3
  let last_names := segments.foldl (fun acc segment =>
    let s := stripPy segment
    if s = [] then acc
    else
      let s1 := removeInitials s
      let s2 := s1.filter (fun c => ¬ (c = ',' ∨ c = '.' ∨ c = '\''))
      let s3 := joinWords (wordsOf s2)
      let ws := wordsOf s3
      acc ++ ((ws.filter (fun w => 1 < w.length)).map (List.map toLowerPy))) []
  joinWords last_names

/-- Match of `\s+(?:and|&)\s+(?:colleagues|co-workers)` (`re.IGNORECASE`)
at the head of the input (alternatives in source order; their first letters
are distinct so sequential trying is faithful). -/
def matchCollabAt (l : List Char) : Option (Rem l) :=
  match eatWs1 l with
  | none => none
  | some ⟨r1, h1⟩ =>
    match eatLitCI (str "and") r1 with
    | some ⟨r2, h2⟩ =>
      match eatWs1 r2 with
      | none => none
      | some ⟨r3, h3⟩ =>
        match eatLitCI (str "colleagues") r3 with
        | some ⟨r4, h4⟩ => some ⟨r4, by omega⟩
        | none =>
          match eatLitCI (str "co-workers") r3 with
          | some ⟨r4, h4⟩ => some ⟨r4, by omega⟩
          | none => none
    | none =>
      match eatCh (fun c => c = '&') r1 with
      | none => none
      | some ⟨r2, h2⟩ =>
        match eatWs1 r2 with
        | none => none
        | some ⟨r3, h3⟩ =>
          match eatLitCI (str "colleagues") r3 with
          | some ⟨r4, h4⟩ => some ⟨r4, by omega⟩
          | none =>
            match eatLitCI (str "co-workers") r3 with
            | some ⟨r4, h4⟩ => some ⟨r4, by omega⟩
            | none => none

/-- `re.sub(r'\s+(?:and|&)\s+(?:colleagues|co-workers)', '', text,
flags=re.IGNORECASE)`. -/
def removeCollabGo : Nat → List Char → List Char
  | _, [] => []
  | 0, l => l
  | fuel + 1, c :: rest =>
    match matchCollabAt (c :: rest) with
    | some ⟨r, _⟩ => removeCollabGo fuel r
    | none => c :: removeCollabGo fuel rest

/-- Wrapper supplying the fuel. -/
def removeCollab (l : List Char) : List Char := removeCollabGo l.length l

/-- `extract_last_name_from_citation` (reference_checker.py:735). -/
def extract_last_name_from_citation (citation_author : List Char) : List Char :=
  let t1 := removeEtAl citation_author
  let t2 := removeCollab t1
  let t3 := replaceConn t2
  let names := ((splitOnComma t3).map stripPy).filter (fun n => n ≠ [])
  joinWords ((names.filter (fun n => n ≠ [])).map lowerStr)

/-- `normalize_year` (reference_checker.py:755): strip one trailing
lowercase letter (`re.sub(r'[a-z]$', '', year)`); `none` for empty or
all-whitespace years. -/
def normalize_year (year : List Char) : Option (List Char) :=
  if year ≠ [] ∧ stripPy year ≠ [] then
    some (match year.getLast? with
          | some c => if isLowerAZ c then year.dropLast else year
          | none => year)
  else none

/-! ## Citation–reference matching (`match_citations_to_references`) -/

/-- A reference's `(authors, year)` pair (year may be the empty string). -/
abbrev Pair := List Char × List Char

/-- An in-text citation `(author, year-or-absent)` pair. -/
abbrev Cite := List Char × Option (List Char)

/-- A lookup key: normalized author text and normalized year. -/
abbrev RKey := List Char × Option (List Char)

/-- The `defaultdict(list)` lookup, with Python dict insertion order. -/
abbrev Lookup := List (RKey × List Pair)

/-- `ref_lookup[key].append(v)` on a `defaultdict(list)`: extend the value
list of an existing key in place, else append a new entry. -/
def ddAppend (lk : Lookup) (k : RKey) (v : Pair) : Lookup :=
  match lk with
  | [] => [(k, [v])]
  | (k', vs) :: rest =>
    if k' = k then (k', vs ++ [v]) :: rest else (k', vs) :: ddAppend rest k v

/-- Key lookup (`key in dict` / `dict[key]`). -/
def lkGet (lk : Lookup) (k : RKey) : Option (List Pair) :=
  match lk with
  | [] => none
  | (k', vs) :: rest => if k' = k then some vs else lkGet rest k

/-- Python `text.split()[0]`, used on outputs of the normalizers; those are
space-joined nonempty words, so for a nonempty input the word list is
nonempty and Python's indexing cannot fail (the `[]` case returns `[]`). -/
def firstWordOr (l : List Char) : List Char :=
  match wordsOf l with
  | [] => []
  | w :: _ => w

/-- One step of the reference-lookup construction
(reference_checker.py:776-787): store the reference under the full
normalized author key and, when distinct, under the first-author key. -/
def buildStep (lk : Lookup) (ay : Pair) : Lookup :=
  let norm_author := normalize_author ay.1
  let norm_year := normalize_year ay.2
  let first_last_name := if norm_author = [] then [] else firstWordOr norm_author
  let lk1 := ddAppend lk (norm_author, norm_year) ay
  if first_last_name ≠ [] ∧ norm_author ≠ first_last_name then
    ddAppend lk1 (first_last_name, norm_year) ay
  else lk1

/-- The reference-lookup construction of `match_citations_to_references`
(reference_checker.py:774-787). -/
def buildLookup (reference_citations : List Pair) : Lookup :=
  reference_citations.foldl buildStep []

/-- The year-less (MLA) resolution loop (reference_checker.py:803-810):
walk the lookup in insertion order and stop at the first key equal to the
citation's normalized author or whose first word equals it.  `none` models
the `IndexError` Python raises on `''.split()[0]` when a key normalizes to
an empty author and the first comparison fails. -/
def scanMLA (norm_cite : List Char) : Lookup → Option (Bool × List Pair)
  | [] => some (false, [])
  | (k, vs) :: rest =>
    if norm_cite = k.1 then some (true, vs)
    else
      match wordsOf k.1 with
      | [] => none
      | w :: _ => if norm_cite = w then some (true, vs) else scanMLA norm_cite rest

/-- Resolution of one in-text citation against the lookup
(reference_checker.py:794-823): returns whether it was found together with
the original reference pairs to mark as cited. -/
def resolveCite (lk : Lookup) (cite : Cite) : Option (Bool × List Pair) :=
  let norm_cite := extract_last_name_from_citation cite.1
  let norm_year : Option (List Char) :=
    match cite.2 with
    | none => none
    | some y => if y = [] then none else normalize_year y
  let first_last_name := if norm_cite = [] then [] else firstWordOr norm_cite
  match norm_year with
  | none => scanMLA norm_cite lk
  | some yr =>
    match lkGet lk (norm_cite, some yr) with
    | some vs => some (true, vs)
    | none =>
      match lkGet lk (first_last_name, some yr) with
      | some vs => some (true, vs)
      | none => some (false, [])

/-- The citation loop of `match_citations_to_references`: accumulates the
cited-reference set (as a list, membership-equivalent to Python's `set`) and
the missing list in input order. -/
def goCites (lk : Lookup) : List Cite → List Pair → List Cite →
    Option (List Pair × List Cite)
  | [], cited, missing => some (cited, missing)
  | c :: cs, cited, missing =>
    match resolveCite lk c with
    | none => none
    | some (found, adds) =>
      goCites lk cs (cited ++ adds) (if found then missing else missing ++ [c])

/-- Order-preserving first-occurrence deduplication
(reference_checker.py:836-841), with its `seen` accumulator. -/
def dedupFirstGo {α : Type} [DecidableEq α] (seen : List α) : List α → List α
  | [] => []
  | x :: xs =>
    if x ∈ seen then dedupFirstGo seen xs
    else x :: dedupFirstGo (seen ++ [x]) xs

/-- Order-preserving deduplication keeping first occurrences. -/
def dedupFirst {α : Type} [DecidableEq α] (l : List α) : List α :=
  dedupFirstGo [] l

/-- `match_citations_to_references` (reference_checker.py:765): returns
`(uncited_refs, unique_missing)`; `none` models the reachable `IndexError`
(see `scanMLA`). -/
def match_citations_to_references (intext_citations : List Cite)
    (reference_citations : List Pair) : Option (List Pair × List Cite) :=
  let ref_lookup := buildLookup reference_citations
  match goCites ref_lookup intext_citations [] [] with
  | none => none
  | some (cited_refs, missing_refs) =>
    some (reference_citations.filter (fun ay => decide (ay ∉ cited_refs)),
          dedupFirst missing_refs)

/-! ## Footer cleaning and reference-section location
(`clean_turnitin_footer`, `find_references_section`, `extract_paper_body`) -/

/-- Match of `Page\s+\d+\s+of\s+\d+` (`re.IGNORECASE`) at the head of the
input; each `\d+`/`\s+` run is maximal. -/
def matchPageOf (l : List Char) : Option (Rem l) :=
  match eatLitCI (str "page") l with
  | none => none
  | some ⟨r1, h1⟩ =>
    match eatWs1 r1 with
    | none => none
    | some ⟨r2, h2⟩ =>
      match eatRun1 isDigitCh r2 with
      | none => none
      | some ⟨r3, h3⟩ =>
        match eatWs1 r3 with
        | none => none
        | some ⟨r4, h4⟩ =>
          match eatLitCI (str "of") r4 with
          | none => none
          | some ⟨r5, h5⟩ =>
            match eatWs1 r5 with
            | none => none
            | some ⟨r6, h6⟩ =>
              match eatRun1 isDigitCh r6 with
              | none => none
              | some ⟨r7, h7⟩ => some ⟨r7, by omega⟩

/-- Footer pattern 1, `re.sub(r'\s*Page\s+\d+\s+of\s+\d+.*$', '', text)`
(`re.IGNORECASE`): truncate at the leftmost position where an optional
whitespace run is followed by the page marker (`.*$` swallows the rest). -/
def cleanP1 : List Char → List Char
  | [] => []
  | c :: rest =>
    if (matchPageOf (dropWsRun (c :: rest))).isSome then []
    else c :: cleanP1 rest

/-- Lookahead `(?=\s[A-Z][a-z]+,|\s*$)` of footer pattern 2. -/
def lookP2 (t : List Char) : Bool :=
  (match t with
   | c :: d :: rest =>
     isSpacePy c && isUpperAZ d &&
       (match eatRun1 isLowerAZ rest with
        | some ⟨r, _⟩ => r.head? = some ','
        | none => false)
   | _ => false) || dropWsRun t = []

/-- Lazy `.*?` up to the first position where `lookP2` holds (it always
holds at the end of the input, where `\s*$` matches). -/
def lazyToLook : (t : List Char) → RemLe t
  | [] => ⟨[], le_refl _⟩
  | c :: rest =>
    if lookP2 (c :: rest) then ⟨c :: rest, le_refl _⟩
    else
      match lazyToLook rest with
      | ⟨r, h⟩ => ⟨r, by simp only [List.length_cons]; omega⟩

/-- The `(?:AI\s+Writing|Submission)` alternation of footer pattern 2
(alternatives in source order, with distinct first letters). -/
def matchP2Alt (r2 : List Char) : Option (RemLe r2) :=
  match eatLitCI (str "ai") r2 with
  | some ⟨s1, hs1⟩ =>
    match eatWs1 s1 with
    | some ⟨s2, hs2⟩ =>
      match eatLitCI (str "writing") s2 with
      | some ⟨s3, hs3⟩ => some ⟨s3, by omega⟩
      | none => none
    | none => none
  | none =>
    match eatLitCI (str "submission") r2 with
    | some ⟨s1, hs1⟩ => some ⟨s1, hs1⟩
    | none => none

/-- Match of footer pattern 2,
`\s*Page\s+\d+\s+of\s+\d+[^\w]*(?:AI\s+Writing|Submission).*?(?=\s[A-Z][a-z]+,|\s*$)`
(`re.IGNORECASE`), at the head of the input; returns the remainder (the
lookahead is not consumed). -/
def matchP2At (l : List Char) : Option (Rem l) :=
  match matchPageOf (dropWsRun l) with
  | none => none
  | some ⟨r1, h1⟩ =>
    match matchP2Alt (r1.dropWhile (fun c => ! isWordCh c)) with
    | none => none
    | some ⟨r3, h3⟩ =>
      some ⟨(lazyToLook r3).1, by
        have hu := (lazyToLook r3).2
        have hd := (List.dropWhile_sublist (l := r1) (fun c => ! isWordCh c)).length_le
        have hw := (List.dropWhile_sublist (l := l) isSpacePy).length_le
        simp only [dropWsRun] at h1
        omega⟩

/-- Footer pattern 2 substitution (scanning resumes after each removal). -/
def cleanP2Go : Nat → List Char → List Char
  | _, [] => []
  | 0, l => l
  | fuel + 1, c :: rest =>
    match matchP2At (c :: rest) with
    | some ⟨r, _⟩ => cleanP2Go fuel r
    | none => c :: cleanP2Go fuel rest

/-- Wrapper supplying the fuel. -/
def cleanP2 (l : List Char) : List Char := cleanP2Go l.length l

/-- Match of `Submission\s+ID\s+[^\s]+` (`re.IGNORECASE`, footer pattern 3)
at the head of the input. -/
def matchSubmissionID (l : List Char) : Option (Rem l) :=
  match eatLitCI (str "submission") l with
  | none => none
  | some ⟨r1, h1⟩ =>
    match eatWs1 r1 with
    | none => none
    | some ⟨r2, h2⟩ =>
      match eatLitCI (str "id") r2 with
      | none => none
      | some ⟨r3, h3⟩ =>
        match eatWs1 r3 with
        | none => none
        | some ⟨r4, h4⟩ =>
          match eatRun1 (fun c => ¬ isSpacePy c) r4 with
          | none => none
          | some ⟨r5, h5⟩ => some ⟨r5, by omega⟩

/-- Footer pattern 3, `re.sub(r'\s*Submission\s+ID\s+[^\s]+.*$', '', text)`. -/
def cleanP3 : List Char → List Char
  | [] => []
  | c :: rest =>
    if (matchSubmissionID (dropWsRun (c :: rest))).isSome then []
    else c :: cleanP3 rest

/-- Match of `AI\s+Writing\s+Submission` (`re.IGNORECASE`) at the head. -/
def matchAIWriting (l : List Char) : Option (Rem l) :=
  match eatLitCI (str "ai") l with
  | none => none
  | some ⟨r1, h1⟩ =>
    match eatWs1 r1 with
    | none => none
    | some ⟨r2, h2⟩ =>
      match eatLitCI (str "writing") r2 with
      | none => none
      | some ⟨r3, h3⟩ =>
        match eatWs1 r3 with
        | none => none
        | some ⟨r4, h4⟩ =>
          match eatLitCI (str "submission") r4 with
          | none => none
          | some ⟨r5, h5⟩ => some ⟨r5, by omega⟩

/-- Footer pattern 4, `re.sub(r'\s*AI\s+Writing\s+Submission.*$', '', text)`. -/
def cleanP4 : List Char → List Char
  | [] => []
  | c :: rest =>
    if (matchAIWriting (dropWsRun (c :: rest))).isSome then []
    else c :: cleanP4 rest

/-- Footer pattern 5, `re.sub(r'\s*Page\s+\d+\s+of\s+\d+\s*-?\s*$', '',
text)` (`re.IGNORECASE`): the match must extend to the end of the string. -/
def cleanP5 : List Char → List Char
  | [] => []
  | c :: rest =>
    (match matchPageOf (dropWsRun (c :: rest)) with
     | some ⟨r, _⟩ =>
       if dropWsRun ((eatOptCh '-' (dropWsRun r)).1) = [] then []
       else c :: cleanP5 rest
     | none => c :: cleanP5 rest)

/-- `clean_turnitin_footer` (reference_checker.py:422): the five
substitutions in source order, then `strip()`. -/
def clean_turnitin_footer (text : List Char) : List Char :=
  stripPy (cleanP5 (cleanP4 (cleanP3 (cleanP2 (cleanP1 text)))))

/-- `re.match(r'^references?\s*$', cleaned)` on an already
stripped-and-lowered line. -/
def headerMatchRefs (cl : List Char) : Bool :=
  match eatLit (str "reference") cl with
  | none => false
  | some ⟨r, _⟩ => dropWsRun (eatOptCh 's' r).1 = []

/-- `re.match(r'^works\s+cited\s*$', cleaned)` on a stripped-and-lowered
line. -/
def headerMatchWC (cl : List Char) : Bool :=
  match eatLit (str "works") cl with
  | none => false
  | some ⟨r1, _⟩ =>
    match eatWs1 r1 with
    | none => false
    | some ⟨r2, _⟩ =>
      match eatLit (str "cited") r2 with
      | none => false
      | some ⟨r3, _⟩ => dropWsRun r3 = []

/-- The `References` header test applied to a raw paragraph. -/
def isRefsHeader (p : List Char) : Bool := headerMatchRefs (lowerStr (stripPy p))

/-- The `Works Cited` header test applied to a raw paragraph. -/
def isWCHeader (p : List Char) : Bool := headerMatchWC (lowerStr (stripPy p))

/-- Either reference-section header
(`find_references_section` / `extract_paper_body` condition). -/
def isHeaderLine (p : List Char) : Bool := isRefsHeader p ∨ isWCHeader p

/-- `re.match(r'^appendix|^appendices|^figure\s*\d|^table\s*\d', cleaned)`
on a stripped-and-lowered line. -/
def isBoundaryLine (p : List Char) : Bool :=
  let cl := lowerStr (stripPy p)
  (eatLit (str "appendix") cl).isSome || (eatLit (str "appendices") cl).isSome ||
    (match eatLit (str "figure") cl with
     | some ⟨r, _⟩ => (match dropWsRun r with | c :: _ => isDigitCh c | [] => false)
     | none => false) ||
    (match eatLit (str "table") cl with
     | some ⟨r, _⟩ => (match dropWsRun r with | c :: _ => isDigitCh c | [] => false)
     | none => false)

/-- `find_references_section` (reference_checker.py:455): lines after the
first header line up to the first structural boundary, footer-cleaned,
blank lines dropped. -/
def find_references_section (paragraphs : List (List Char)) : List (List Char) :=
  match paragraphs.findIdx? isHeaderLine with
  | none => []
  | some i =>
    let rest := paragraphs.drop (i + 1)
    let endRel := (rest.findIdx? isBoundaryLine).getD rest.length
    (rest.take endRel).filterMap (fun p =>
      if stripPy p = [] then none
      else
        let cleaned := clean_turnitin_footer p
        if cleaned = [] then none else some cleaned)

/-- `extract_paper_body` (reference_checker.py:509): everything before the
reference-section header, skipping a title page up to an
`abstract`/`introduction` line found among the first 20 paragraphs. -/
def extract_paper_body (paragraphs : List (List Char)) : List (List Char) :=
  match paragraphs.findIdx? isHeaderLine with
  | none => paragraphs
  | some ref_idx =>
    let pre := paragraphs.take (min 20 ref_idx)
    let start_idx := (pre.findIdx? (fun p =>
      lowerStr (stripPy p) = str "abstract" ∨
        lowerStr (stripPy p) = str "introduction")).getD 0
    ((paragraphs.drop start_idx).take (ref_idx - start_idx)).filter
      (fun p => decide (stripPy p ≠ []))

/-! ## Style detection (`detect_citation_style`) -/

/-- Regex `[A-Z][a-z]+` with the lowercase run maximal (the following
pattern item is never a lowercase letter where this is used). -/
def eatCapLowers (l : List Char) : Option (Rem l) :=
  match eatCh isUpperAZ l with
  | none => none
  | some ⟨r1, h1⟩ =>
    match eatRun1 isLowerAZ r1 with
    | none => none
    | some ⟨r2, h2⟩ => some ⟨r2, by omega⟩

/-- Tail `(?:[A-Z]\.\s*)?\(` of the first APA signature: the optional second
initial is tried greedily; if it is absent or fails, the next character must
be the opening parenthesis. -/
def apaSig1Tail (t : List Char) : Bool :=
  match t with
  | c :: '.' :: t2 =>
    if isUpperAZ c then (dropWsRun t2).head? = some '('
    else c = '('
  | c :: _ => c = '('
  | [] => false

/-- Match at the head of `[A-Z][a-z]+,\s+[A-Z]\.\s*(?:[A-Z]\.\s*)?\(`
(APA signature 1, +3). -/
def apaSig1At (l : List Char) : Bool :=
  match eatCapLowers l with
  | none => false
  | some ⟨r1, _⟩ =>
    match r1 with
    | ',' :: r2 =>
      (match eatWs1 r2 with
       | none => false
       | some ⟨r3, _⟩ =>
         match r3 with
         | c :: '.' :: r4 => isUpperAZ c && apaSig1Tail (dropWsRun r4)
         | _ => false)
    | _ => false

/-- Match at the head of `\(\d{4}[a-z]?\)` (the `[a-z]?` is greedy; when it
consumes a letter the next character must close the parenthesis, and
skipping it cannot help since a letter is not `)`). -/
def parenYearAtHead (l : List Char) : Bool :=
  match l with
  | '(' :: rest =>
    (match eatDigitsN 4 rest with
     | none => false
     | some ⟨r, _⟩ =>
       match r with
       | c :: r2 => if isLowerAZ c then r2.head? = some ')' else c = ')'
       | [] => false)
  | _ => false

/-- `re.search(r'^[^(]{10,60}\(\d{4}[a-z]?\)', ref)` (APA signature 2, +2):
anchored, so the `{10,60}` run must stop exactly at the first `(`. -/
def apaSig2 (ref : List Char) : Bool :=
  let k := (ref.takeWhile (fun c => c ≠ '(')).length
  10 ≤ k && k ≤ 60 && parenYearAtHead (ref.drop k)

/-- Tail `\.\s+"` of the first MLA signature. -/
def mlaName2Tail (t : List Char) : Bool :=
  match t with
  | '.' :: t2 =>
    (match eatWs1 t2 with
     | none => false
     | some ⟨r, _⟩ => r.head? = some '"')
  | _ => false

/-- Shared head of the MLA full-name signatures:
`[A-Z][a-z]+,\s+[A-Z][a-z]+(?:\s+[A-Z][a-z]+)?` followed by `tail`; the
optional third name is tried greedily, and when it matches, `tail` must
follow it (falling back is impossible because `tail` starts with `.` and
the fallback position holds whitespace). -/
def mlaNameAt (tail : List Char → Bool) (l : List Char) : Bool :=
  match eatCapLowers l with
  | none => false
  | some ⟨r1, _⟩ =>
    match r1 with
    | ',' :: r2 =>
      (match eatWs1 r2 with
       | none => false
       | some ⟨r3, _⟩ =>
         match eatCapLowers r3 with
         | none => false
         | some ⟨r4, _⟩ =>
           match r4 with
           | c :: _ =>
             if isSpacePy c then
               match eatWs1 r4 with
               | none => false
               | some ⟨r5, _⟩ =>
                 (match eatCapLowers r5 with
                  | none => false
                  | some ⟨r6, _⟩ => tail r6)
             else tail r4
           | [] => tail r4)
    | _ => false

/-- Match at the head of
`[A-Z][a-z]+,\s+[A-Z][a-z]+(?:\s+[A-Z][a-z]+)?\.\s+"` (MLA signature 1, +3). -/
def mlaSig1At (l : List Char) : Bool := mlaNameAt mlaName2Tail l

/-- Match at the head of
`[A-Z][a-z]+,\s+[A-Z][a-z]+(?:\s+[A-Z][a-z]+)?\.` (MLA signature 2, +2). -/
def mlaSig2At (l : List Char) : Bool :=
  mlaNameAt (fun t => t.head? = some '.') l

/-- Match at the head of `\(\d{4}\)` (no disambiguation letter). -/
def parenYearExactAt (l : List Char) : Bool :=
  match l with
  | '(' :: rest =>
    (match eatDigitsN 4 rest with
     | none => false
     | some ⟨r, _⟩ => r.head? = some ')')
  | _ => false

/-- `re.search`: try the head test at every position. -/
def reSearch (test : List Char → Bool) : List Char → Bool
  | [] => test []
  | c :: rest => test (c :: rest) || reSearch test rest

/-- Four consecutive digits at the head (`\d{4}` with no adjacency
constraints). -/
def fourDigitsAt (l : List Char) : Bool := (eatDigitsN 4 l).isSome

/-- `re.search(r'^[^"]{10,50}"[^"]{10,}".{20,}\d{4}', ref)` (MLA signature
3, +2): anchored, so the first quote must lie at index 10–50, the second at
least 10 characters later, and a four-digit run must start at least 21
characters after the second quote. -/
def mlaSig3 (ref : List Char) : Bool :=
  let k := (ref.takeWhile (fun c => c ≠ '"')).length
  let t := ref.drop (k + 1)
  let k2 := (t.takeWhile (fun c => c ≠ '"')).length
  10 ≤ k && k ≤ 50 && (ref.drop k).head? = some '"' &&
    10 ≤ k2 && (t.drop k2).head? = some '"' &&
    reSearch fourDigitsAt ((t.drop (k2 + 1)).drop 20)

/-- Per-line scoring of the style detector's reference-sample loop
(reference_checker.py:353-385); lines shorter than 20 characters are
skipped. -/
def sampleScoreLine (ref : List Char) : Nat × Nat :=
  if ref.length < 20 then (0, 0)
  else
    let a1 := if reSearch apaSig1At ref then 3 else 0
    let a2 := if apaSig2 ref then 2 else 0
    let m1 := if reSearch mlaSig1At ref then 3 else 0
    let m2 := if reSearch mlaSig2At ref ∧ ¬ reSearch parenYearExactAt (ref.take 60)
              then 2 else 0
    let m3 := if mlaSig3 ref then 2 else 0
    (a1 + a2, m1 + m2 + m3)

/-- Scores from the first five reference-section lines. -/
def sampleScorePair (ref_section : List (List Char)) : Nat × Nat :=
  ((ref_section.take 5).map sampleScoreLine).foldl
    (fun acc p => (acc.1 + p.1, acc.2 + p.2)) (0, 0)

/-- Scores from the header wording (reference_checker.py:341-348): the
first paragraph matching either header regex contributes `+2` to APA for
`References` or `+3` to MLA for `Works Cited`. -/
def headerScorePair : List (List Char) → Nat × Nat
  | [] => (0, 0)
  | p :: rest =>
    if isRefsHeader p then (2, 0)
    else if isWCHeader p then (0, 3)
    else headerScorePair rest

/-- The optional `(?:\s+et al\.)?` of the body APA-citation pattern
(case-sensitive, single literal space inside `et al.`), tried greedily;
when the following comma is missing, falling back cannot help because the
group started with mandatory whitespace. -/
def apaCiteOpt (r : List Char) : RemLe r :=
  match eatWs1 r with
  | some ⟨r1, h1⟩ =>
    (match eatLit (str "et al.") r1 with
     | some ⟨r2, h2⟩ => ⟨r2, by omega⟩
     | none => ⟨r, le_refl _⟩)
  | none => ⟨r, le_refl _⟩

/-- Match of `\([A-Z][a-z]+(?:\s+et al\.)?,\s*\d{4}\)` (body APA-citation
sample, reference_checker.py:392) at the head of the input. -/
def matchApaCiteAt (l : List Char) : Option (Rem l) :=
  match l with
  | '(' :: rest =>
    (match eatCapLowers rest with
     | none => none
     | some ⟨r1, h1⟩ =>
       match apaCiteOpt r1 with
       | ⟨r2, h2⟩ =>
         match eatCh (fun c => c = ',') r2 with
         | none => none
         | some ⟨r3, h3⟩ =>
           match eatDigitsN 4 (dropWsRun r3) with
           | none => none
           | some ⟨r4, h4⟩ =>
             match eatCh (fun c => c = ')') r4 with
             | none => none
             | some ⟨r5, h5⟩ =>
               some ⟨r5, by
                 have hw := (List.dropWhile_sublist (l := r3) isSpacePy).length_le
                 simp only [dropWsRun] at h4
                 simp only [List.length_cons]
                 omega⟩)
  | _ => none

/-- `\d{1,4}`, greedy with the backtracking collapsed: the maximal digit
run must have length 1–4, because a digit cannot match the following `-`
or `)`. -/
def eatDigits1To4 (l : List Char) : Option (Rem l) :=
  match l with
  | c :: rest =>
    if isDigitCh c then
      if (rest.takeWhile isDigitCh).length ≤ 3 then
        some ⟨rest.dropWhile isDigitCh, by
          have := (List.dropWhile_sublist (l := rest) isDigitCh).length_le
          simp only [List.length_cons]; omega⟩
      else none
    else none
  | [] => none

/-- Match of `\([A-Z][a-z]+\s+\d{1,4}(?:-\d{1,4})?\)` (body MLA-citation
sample, reference_checker.py:395) at the head of the input; when the
optional page-range part starts with `-` but fails, the closing parenthesis
cannot match the `-`, so no fallback exists. -/
def matchMlaCiteAt (l : List Char) : Option (Rem l) :=
  match l with
  | '(' :: rest =>
    (match eatCapLowers rest with
     | none => none
     | some ⟨r1, h1⟩ =>
       match eatWs1 r1 with
       | none => none
       | some ⟨r2, h2⟩ =>
         match eatDigits1To4 r2 with
         | none => none
         | some ⟨r3, h3⟩ =>
           match eatCh (fun c => c = '-') r3 with
           | some ⟨r4, h4⟩ =>
             (match eatDigits1To4 r4 with
              | none => none
              | some ⟨r5, h5⟩ =>
                match eatCh (fun c => c = ')') r5 with
                | none => none
                | some ⟨r6, h6⟩ =>
                  some ⟨r6, by simp only [List.length_cons]; omega⟩)
           | none =>
             match eatCh (fun c => c = ')') r3 with
             | none => none
             | some ⟨r4, h4⟩ =>
               some ⟨r4, by simp only [List.length_cons]; omega⟩)
  | _ => none

/-- `len(re.findall(...))` for the body APA-citation pattern:
non-overlapping leftmost matches, resuming after each match. -/
def countApaCitesGo : Nat → List Char → Nat
  | _, [] => 0
  | 0, _ => 0
  | fuel + 1, c :: rest =>
    match matchApaCiteAt (c :: rest) with
    | some ⟨r, _⟩ => 1 + countApaCitesGo fuel r
    | none => countApaCitesGo fuel rest

/-- Wrapper supplying the fuel. -/
def countApaCites (l : List Char) : Nat := countApaCitesGo l.length l

/-- `len(re.findall(...))` for the body MLA-citation pattern. -/
def countMlaCitesGo : Nat → List Char → Nat
  | _, [] => 0
  | 0, _ => 0
  | fuel + 1, c :: rest =>
    match matchMlaCiteAt (c :: rest) with
    | some ⟨r, _⟩ => 1 + countMlaCitesGo fuel r
    | none => countMlaCitesGo fuel rest

/-- Wrapper supplying the fuel. -/
def countMlaCites (l : List Char) : Nat := countMlaCitesGo l.length l

/-- Scores from the in-text citation shapes sampled over the first 100 body
paragraphs (reference_checker.py:387-400). -/
def bodyScorePair (paragraphs : List (List Char)) : Nat × Nat :=
  let body := extract_paper_body paragraphs
  let body_text := joinWords (body.take 100)
  let apa_citations := countApaCites body_text
  let mla_citations := countMlaCites body_text
  if apa_citations > mla_citations * 2 then (2, 0)
  else if mla_citations > apa_citations then (0, 2)
  else (0, 0)

/-- The two style counters of `detect_citation_style` (APA score, MLA
score): header wording plus reference-sample signatures plus body
citation shapes, each channel additive. -/
def styleScores (paragraphs : List (List Char)) (ref_section : List (List Char)) :
    Nat × Nat :=
  let h := headerScorePair paragraphs
  let s := sampleScorePair ref_section
  let b := bodyScorePair paragraphs
  (h.1 + s.1 + b.1, h.2 + s.2 + b.2)

/-- The closed citation-style enumeration. -/
inductive Style where
  | APA : Style
  | MLA : Style
  | UNKNOWN : Style
  deriving DecidableEq

/-- `detect_citation_style` (reference_checker.py:322): style plus
confidence percentage; Python's float arithmetic is modelled exactly over
`ℚ`. -/
def detect_citation_style (paragraphs : List (List Char)) : Style × ℚ :=
  let ref_section := find_references_section paragraphs
  if ref_section = [] ∨ ref_section.length < 2 then (Style.UNKNOWN, 0)
  else
    let s := styleScores paragraphs ref_section
    let total_score := s.1 + s.2
    if total_score = 0 then (Style.UNKNOWN, 0)
    else if s.1 > s.2 then (Style.APA, ((s.1 : ℚ) / (total_score : ℚ)) * 100)
    else if s.2 > s.1 then (Style.MLA, ((s.2 : ℚ) / (total_score : ℚ)) * 100)
    else (Style.UNKNOWN, 50)

/-! ## Reference segmentation (`split_apa_references`,
`split_mla_references`, `split_references`) -/

/-- Regex class `[a-zA-Z\-\']` of the author-shape patterns. -/
def nameCh (c : Char) : Bool := isAlphaCh c || c = '-' || c = '\''

/-- Python `' '.join(current_ref)`. -/
def joinLines (cur : List (List Char)) : List Char := joinWords cur

/-- Append an accumulated entry only when longer than 20 characters
(the segmenters' noise floor). -/
def emitIfLong (refs : List (List Char)) (t : List Char) : List (List Char) :=
  if 20 < t.length then refs ++ [t] else refs

/-- `\b(19|20)\d{2}\b` matched at the head, given the preceding character
(`none` at the start of the string); returns the four digits (group 0). -/
def bare1920At (prev : Option Char) (l : List Char) : Bool :=
  (match prev with
   | none => true
   | some p => ! isWordCh p) &&
  (match l with
   | a :: b :: c :: d :: rest =>
     ((a = '1' && b = '9') || (a = '2' && b = '0')) && isDigitCh c && isDigitCh d &&
       (match rest with
        | [] => true
        | e :: _ => ! isWordCh e)
   | _ => false)

/-- `re.search(r'\b(19|20)\d{2}\b', l)` returning the matched four digits
of the leftmost occurrence. -/
def findBare1920Go (prev : Option Char) : List Char → Option (List Char)
  | [] => none
  | c :: rest =>
    if bare1920At prev (c :: rest) then some ((c :: rest).take 4)
    else findBare1920Go (some c) rest

/-- Leftmost word-bounded `(19|20)\d{2}` run. -/
def findBare1920 (l : List Char) : Option (List Char) := findBare1920Go none l

/-- Whether a word-bounded `(19|20)\d{2}` run occurs. -/
def searchBare1920 (l : List Char) : Bool := (findBare1920 l).isSome

/-- The APA new-entry test (reference_checker.py:1136-1147): a line opening
with a capital whose first 150 characters show a parenthesized year, or a
bare word-bounded year together with a comma or period in the first 50
characters. -/
def apaIsNewRef (line : List Char) : Bool :=
  match line with
  | c :: _ =>
    if isUpperAZ c then
      let first_part := line.take 150
      if reSearch parenYearAtHead first_part then true
      else searchBare1920 first_part &&
             (first_part.take 50).any (fun d => d = ',' || d = '.')
    else false
  | [] => false

/-- Group 2 of the APA mid-line split pattern,
`[A-Z][a-zA-Z\-\']+,\s+[A-Z]\.(?:\s+[A-Z]\.)?`, matched at its start;
returns the position after the match (the optional second initial is
greedy, and skipping it needs no retry since nothing follows). -/
def matchApaAuthorTail (g2 : List Char) : Option (Rem g2) :=
  match eatCh isUpperAZ g2 with
  | none => none
  | some ⟨r1, h1⟩ =>
    match eatRun1 nameCh r1 with
    | none => none
    | some ⟨r2, h2⟩ =>
      match eatCh (fun c => c = ',') r2 with
      | none => none
      | some ⟨r3, h3⟩ =>
        match eatWs1 r3 with
        | none => none
        | some ⟨r4, h4⟩ =>
          match eatCh isUpperAZ r4 with
          | none => none
          | some ⟨r5, h5⟩ =>
            match eatCh (fun c => c = '.') r5 with
            | none => none
            | some ⟨r6, h6⟩ =>
              match eatWs1 r6 with
              | some ⟨r7, h7⟩ =>
                (match eatCh isUpperAZ r7 with
                 | some ⟨r8, h8⟩ =>
                   (match eatCh (fun c => c = '.') r8 with
                    | some ⟨r9, h9⟩ => some ⟨r9, by omega⟩
                    | none => some ⟨r6, by omega⟩)
                 | none => some ⟨r6, by omega⟩)
              | none => some ⟨r6, by omega⟩

/-- Match at the head of the APA mid-line split pattern
`(/)\s+([A-Z][a-zA-Z\-\']+,\s+[A-Z]\.(?:\s+[A-Z]\.)?)`
(reference_checker.py:1095); yields the suffixes at the start of group 2
and at the end of the whole match. -/
def matchApaMidAt (l : List Char) : Option (Rem l × Rem l) :=
  match l with
  | '/' :: rest =>
    (match eatWs1 rest with
     | none => none
     | some ⟨g2, hg⟩ =>
       match matchApaAuthorTail g2 with
       | none => none
       | some ⟨e, he⟩ =>
         some (⟨g2, by simp only [List.length_cons]; omega⟩,
               ⟨e, by simp only [List.length_cons]; omega⟩))
  | _ => none

/-- The APA mid-line candidate loop (reference_checker.py:1095-1131):
`finditer` produces non-overlapping candidates; each is accepted when the
stripped text before group 2 exceeds 40 characters and the first 100
characters of the stripped text after it contain a parenthesized year,
otherwise scanning resumes at the match end.  `preRev` is the reversed
prefix already scanned. -/
def apaSplitGo : Nat → List Char → List Char → Option (List Char × List Char)
  | _, _, [] => none
  | 0, _, _ => none
  | fuel + 1, preRev, c :: rest =>
    match matchApaMidAt (c :: rest) with
    | none => apaSplitGo fuel (c :: preRev) rest
    | some (⟨g2, _⟩, ⟨e, _⟩) =>
      let consumed := (c :: rest).take ((c :: rest).length - g2.length)
      let before := stripPy (preRev.reverse ++ consumed)
      let after := stripPy g2
      if 40 < before.length ∧ reSearch parenYearAtHead (after.take 100) then
        some (before, after)
      else
        apaSplitGo fuel
          (((c :: rest).take ((c :: rest).length - e.length)).reverse ++ preRev) e

/-- First valid APA mid-line split of a stripped line, as
`(before, after)`. -/
def apaFindSplit (line : List Char) : Option (List Char × List Char) :=
  apaSplitGo line.length [] line

/-- The line-accumulation loop of `split_apa_references`
(reference_checker.py:1070-1162): `refs` are the emitted entries, `cur`
the open entry's stripped lines. -/
def splitApaGo : List (List Char) → List (List Char) → List (List Char) →
    List (List Char)
  | [], refs, cur => if cur ≠ [] then emitIfLong refs (joinLines cur) else refs
  | l :: rest, refs, cur =>
    let line := stripPy l
    if line = [] then splitApaGo rest refs cur
    else
      match apaFindSplit line with
      | some (before, after) =>
        if before ≠ [] ∧ cur ≠ [] then
          splitApaGo rest (emitIfLong refs (joinLines (cur ++ [before]))) [after]
        else if before ≠ [] then
          splitApaGo rest (if 20 < before.length then refs ++ [before] else refs)
            [after]
        else splitApaGo rest refs [after]
      | none =>
        if cur ≠ [] ∧ apaIsNewRef line then
          splitApaGo rest (emitIfLong refs (joinLines cur)) [line]
        else splitApaGo rest refs (cur ++ [line])

/-- `split_apa_references` (reference_checker.py:1070). -/
def split_apa_references (references_text : List (List Char)) :
    List (List Char) :=
  splitApaGo references_text [] []

/-- MLA page-header line test, `re.match(r'^[A-Z][a-z]+\s+\d+$', line)`
(reference_checker.py:945). -/
def isPageHeaderLine (line : List Char) : Bool :=
  match eatCapLowers line with
  | none => false
  | some ⟨r1, _⟩ =>
    match eatWs1 r1 with
    | none => false
    | some ⟨r2, _⟩ =>
      match eatRun1 isDigitCh r2 with
      | some ⟨r3, _⟩ => r3 = []
      | none => false

/-- `[A-Z][a-zA-Z]{2,}` with the alpha run maximal; consumes the run. -/
def eatAlpha2Run (l : List Char) : Option (Rem l) :=
  match l with
  | a :: b :: rest =>
    if isUpperAZ a ∧ isAlphaCh b then
      match eatCh isAlphaCh rest with
      | none => none
      | some ⟨_, _⟩ =>
        some ⟨rest.dropWhile isAlphaCh, by
          have := (List.dropWhile_sublist (l := rest) isAlphaCh).length_le
          simp only [List.length_cons]; omega⟩
    else none
  | _ => none

/-- Group 2 of the MLA mid-line split pattern,
`[A-Z][a-zA-Z]{2,},\s+[A-Z][a-zA-Z]{2,}`, matched at its start; returns
the match end. -/
def matchMlaAuthorPair (g2 : List Char) : Option (Rem g2) :=
  match eatAlpha2Run g2 with
  | none => none
  | some ⟨r1, h1⟩ =>
    match eatCh (fun c => c = ',') r1 with
    | none => none
    | some ⟨r2, h2⟩ =>
      match eatWs1 r2 with
      | none => none
      | some ⟨r3, h3⟩ =>
        match eatAlpha2Run r3 with
        | none => none
        | some ⟨r4, h4⟩ => some ⟨r4, by omega⟩

/-- Alternative A of the MLA mid-line group 1,
`\.(?:com|org|edu|gov|net)/[^\s]*\.?` followed by the separator `\s+`
(the trailing `\.?` is absorbed by the maximal `[^\s]*` run); takes the
text after the leading dot, returns the suffix at group 2. -/
def mlaAltA (rest : List Char) : Option (Rem rest) :=
  (str "com" :: str "org" :: str "edu" :: str "gov" :: str "net" :: []).firstM
    (fun tld =>
      match eatLit tld rest with
      | none => none
      | some ⟨r1, h1⟩ =>
        match eatCh (fun c => c = '/') r1 with
        | none => none
        | some ⟨r2, h2⟩ =>
          match eatWs1 (r2.dropWhile (fun c => ! isSpacePy c)) with
          | none => none
          | some ⟨r3, h3⟩ =>
            some ⟨r3, by
              have := (List.dropWhile_sublist (l := r2)
                (fun c => ! isSpacePy c)).length_le
              omega⟩)

/-- The `\s*\.?` + separator `\s+` tail of alternative B: after a maximal
whitespace run, either a dot followed by mandatory whitespace, or at least
one whitespace character already consumed. -/
def mlaAltBTail (t : List Char) : Option (Rem t) :=
  match h : dropWsRun t with
  | '.' :: r2 =>
    (match eatWs1 r2 with
     | some ⟨r3, h3⟩ =>
       some ⟨r3, by
         have hd := (List.dropWhile_sublist (l := t) isSpacePy).length_le
         simp only [dropWsRun] at h
         rw [h] at hd
         simp only [List.length_cons] at hd
         omega⟩
     | none => none)
  | r =>
    if hlt : r.length < t.length then some ⟨r, hlt⟩ else none

/-- Alternative B of the MLA mid-line group 1,
`\.(?:htm|html|pdf|asp|aspx|php|jsp)\s*\.?` followed by the separator
`\s+` (extensions tried in source order, each with the full tail, which
resolves the `htm`/`html` and `asp`/`aspx` shared prefixes). -/
def mlaAltB (rest : List Char) : Option (Rem rest) :=
  (str "htm" :: str "html" :: str "pdf" :: str "asp" :: str "aspx" ::
      str "php" :: str "jsp" :: []).firstM
    (fun ext =>
      match eatLit ext rest with
      | none => none
      | some ⟨r1, h1⟩ =>
        match mlaAltBTail r1 with
        | none => none
        | some ⟨r2, h2⟩ => some ⟨r2, by omega⟩)

/-- Match at the head of the MLA mid-line split pattern
`(\.(?:com|org|edu|gov|net)/[^\s]*\.?|\.(?:htm|html|pdf|asp|aspx|php|jsp)\s*\.?|\.)\s+([A-Z][a-zA-Z]{2,},\s+[A-Z][a-zA-Z]{2,})`
(reference_checker.py:960); the three alternatives open with mutually
exclusive text after the dot, so at most one can start.  Yields the
suffixes at the start of group 2 and at the match end. -/
def matchMlaMidAt (l : List Char) : Option (Rem l × Rem l) :=
  match l with
  | '.' :: rest =>
    (match
        (match mlaAltA rest with
         | some r => some r
         | none =>
           match mlaAltB rest with
           | some r => some r
           | none => eatWs1 rest) with
     | none => none
     | some ⟨g2, hg⟩ =>
       match matchMlaAuthorPair g2 with
       | none => none
       | some ⟨e, he⟩ =>
         some (⟨g2, by simp only [List.length_cons]; omega⟩,
               ⟨e, by simp only [List.length_cons]; omega⟩))
  | _ => none

/-- The middle-initial look-back (reference_checker.py:966-973):
`re.search(r'\s[A-Z]\.\s*$', line[max(0, sp-4):sp])` on the reversed prefix
before the split point — the `$`-anchored match inside the four-character
window is either `ws capital dot` or `ws capital dot ws`. -/
def midInitialWindow (preRev : List Char) : Bool :=
  match preRev with
  | '.' :: c :: w :: _ => isUpperAZ c && isSpacePy w
  | w1 :: '.' :: c :: w :: _ => isSpacePy w1 && isUpperAZ c && isSpacePy w
  | _ => false

/-- The MLA mid-line candidate loop (reference_checker.py:960-1003):
candidates are skipped when the split point sits right after a middle
initial or the stripped text before it is at most 40 characters long;
scanning resumes at the candidate's match end. -/
def mlaSplitGo : Nat → List Char → List Char → Option (List Char × List Char)
  | _, _, [] => none
  | 0, _, _ => none
  | fuel + 1, preRev, c :: rest =>
    match matchMlaMidAt (c :: rest) with
    | none => mlaSplitGo fuel (c :: preRev) rest
    | some (⟨g2, _⟩, ⟨e, _⟩) =>
      let preG2 := ((c :: rest).take ((c :: rest).length - g2.length)).reverse ++ preRev
      let before := stripPy preG2.reverse
      if midInitialWindow preG2 then
        mlaSplitGo fuel
          (((c :: rest).take ((c :: rest).length - e.length)).reverse ++ preRev) e
      else if before.length ≤ 40 then
        mlaSplitGo fuel
          (((c :: rest).take ((c :: rest).length - e.length)).reverse ++ preRev) e
      else some (before, stripPy g2)

/-- First valid MLA mid-line split of a stripped line. -/
def mlaFindSplit (line : List Char) : Option (List Char × List Char) :=
  mlaSplitGo line.length [] line

/-- MLA author-shape line opening,
`re.match(r'^[A-Z][a-zA-Z\-\']+,\s+[A-Z]', line)`. -/
def mlaP2 (line : List Char) : Bool :=
  match eatCh isUpperAZ line with
  | none => false
  | some ⟨r1, _⟩ =>
    match eatRun1 nameCh r1 with
    | none => false
    | some ⟨r2, _⟩ =>
      match r2 with
      | ',' :: r3 =>
        (match eatWs1 r3 with
         | some ⟨r4, _⟩ => (match r4 with | d :: _ => isUpperAZ d | [] => false)
         | none => false)
      | _ => false

/-- Title-shape line opening, `re.match(r'^[A-Z][a-zA-Z]*\s+[A-Z]', line)`. -/
def mlaP3a (line : List Char) : Bool :=
  match line with
  | c :: rest =>
    isUpperAZ c &&
      (match eatWs1 (rest.dropWhile isAlphaCh) with
       | some ⟨r, _⟩ => (match r with | d :: _ => isUpperAZ d | [] => false)
       | none => false)
  | [] => false

/-- Single-word-title line opening,
`re.match(r'^[A-Z][a-zA-Z]+\.\s+[A-Z]', line)`. -/
def mlaP3b (line : List Char) : Bool :=
  match line with
  | c :: rest =>
    isUpperAZ c &&
      (match eatRun1 isAlphaCh rest with
       | some ⟨r1, _⟩ =>
         (match r1 with
          | '.' :: r2 =>
            (match eatWs1 r2 with
             | some ⟨r3, _⟩ =>
               (match r3 with | d :: _ => isUpperAZ d | [] => false)
             | none => false)
          | _ => false)
       | none => false)
  | [] => false

/-- `\b[12]\d{3}\s*\.?\s*$`: the accumulated entry's last line ends with a
word-bounded year. -/
def endsYearB (last_line : List Char) : Bool :=
  let r3 := dropWsRun ((eatOptCh '.' (dropWsRun last_line.reverse)).1)
  match r3 with
  | d4 :: d3 :: d2 :: y :: rest =>
    isDigitCh d4 && isDigitCh d3 && isDigitCh d2 && (y = '1' || y = '2') &&
      (match rest with
       | [] => true
       | p :: _ => ! isWordCh p)
  | _ => false

/-- Class `[\d\s–-]` of the page-range pattern. -/
def pageRangeCh (c : Char) : Bool :=
  isDigitCh c || isSpacePy c || c = '–' || c = '-'

/-- `pp?\.\s*\d+[\d\s–-]*\.?\s*$`: ends with page numbers.  Reading from
the end: optional whitespace, optional dot, then a page-range-class run
whose first (forward) non-space character must be a digit, preceded by
`p.`/`pp.`. -/
def endsPagesB (last_line : List Char) : Bool :=
  let r2 := (eatOptCh '.' (dropWsRun last_line.reverse)).1
  let r3 := r2.dropWhile pageRangeCh
  let region := (r2.take (r2.length - r3.length)).reverse
  (match r3 with
   | '.' :: 'p' :: _ => true
   | _ => false) &&
  (match dropWsRun region with
   | c :: _ => isDigitCh c
   | [] => false)

/-- Tail of the URL-ending pattern: after `tld/`, the whole remainder is a
non-whitespace run (absorbing the optional dot) followed by whitespace. -/
def endsUrlTail (rest : List Char) : Bool :=
  dropWsRun (rest.dropWhile (fun c => ! isSpacePy c)) = []

/-- Head test for `(?:com|org|edu|gov|net)/[^\s]*\.?\s*$`. -/
def tldSlashAt (l : List Char) : Bool :=
  (str "com" :: str "org" :: str "edu" :: str "gov" :: str "net" :: []).any
    (fun tld =>
      match eatLit tld l with
      | some ⟨r, _⟩ =>
        (match r with
         | '/' :: r2 => endsUrlTail r2
         | _ => false)
      | none => false)

/-- `(?:com|org|edu|gov|net)/[^\s]*\.?\s*$`: ends with a URL. -/
def endsUrlB (last_line : List Char) : Bool := reSearch tldSlashAt last_line

/-- Head test for `\.(?:htm|html|pdf|asp|aspx|php|jsp)\.?\s*$` (extensions
tried with the full tail, resolving shared prefixes). -/
def extDotEndAt (l : List Char) : Bool :=
  match l with
  | '.' :: rest =>
    (str "htm" :: str "html" :: str "pdf" :: str "asp" :: str "aspx" ::
        str "php" :: str "jsp" :: []).any
      (fun ext =>
        match eatLit ext rest with
        | some ⟨r, _⟩ => dropWsRun (eatOptCh '.' r).1 = []
        | none => false)
  | _ => false

/-- `\.(?:htm|html|pdf|asp|aspx|php|jsp)\.?\s*$`: ends with a file
extension. -/
def endsExtB (last_line : List Char) : Bool := reSearch extDotEndAt last_line

/-- Head test for `Accessed\s+\d+\s+\w+\.?\s+\d{4}\.?\s*$`. -/
def accessedAt (l : List Char) : Bool :=
  match eatLit (str "Accessed") l with
  | none => false
  | some ⟨r1, _⟩ =>
    match eatWs1 r1 with
    | none => false
    | some ⟨r2, _⟩ =>
      match eatRun1 isDigitCh r2 with
      | none => false
      | some ⟨r3, _⟩ =>
        match eatWs1 r3 with
        | none => false
        | some ⟨r4, _⟩ =>
          match eatRun1 isWordCh r4 with
          | none => false
          | some ⟨r5, _⟩ =>
            match eatWs1 (eatOptCh '.' r5).1 with
            | none => false
            | some ⟨r6, _⟩ =>
              match eatDigitsN 4 r6 with
              | none => false
              | some ⟨r7, _⟩ => dropWsRun (eatOptCh '.' r7).1 = []

/-- `Accessed\s+\d+\s+\w+\.?\s+\d{4}\.?\s*$`: ends with an access date. -/
def endsAccessedB (last_line : List Char) : Bool := reSearch accessedAt last_line

/-- Head test for `vol\.\s*\d+.*\d+\.?\s*$`: `vol.` with a digit after
optional whitespace, and the remainder after that first digit ends with a
digit followed by an optional dot and trailing whitespace. -/
def volAt (l : List Char) : Bool :=
  match eatLit (str "vol.") l with
  | none => false
  | some ⟨r1, _⟩ =>
    match dropWsRun r1 with
    | c :: rest =>
      isDigitCh c &&
        (match (eatOptCh '.' (dropWsRun rest.reverse)).1 with
         | d :: _ => isDigitCh d
         | [] => false)
    | [] => false

/-- `vol\.\s*\d+.*\d+\.?\s*$`: ends with volume information. -/
def endsVolB (last_line : List Char) : Bool := reSearch volAt last_line

/-- Head test for `\d+\s+ed\.?\s*$`. -/
def edEndAt (l : List Char) : Bool :=
  match eatRun1 isDigitCh l with
  | none => false
  | some ⟨r1, _⟩ =>
    match eatWs1 r1 with
    | none => false
    | some ⟨r2, _⟩ =>
      match eatLit (str "ed") r2 with
      | none => false
      | some ⟨r3, _⟩ => dropWsRun (eatOptCh '.' r3).1 = []

/-- `\d+\s+ed\.?\s*$`: ends with an edition marker. -/
def endsEdB (last_line : List Char) : Bool := reSearch edEndAt last_line

/-- The terminal-word pattern's class: letters, digits, hyphen, slash. -/
def wordSlashCh (c : Char) : Bool :=
  isAlphaCh c || isDigitCh c || c = '-' || c = '/'

/-- Terminal-word test (class then `.` then trailing whitespace, at the
end): ends with a word or URL segment of at least three characters
followed by a period. -/
def endsWordDotB (last_line : List Char) : Bool :=
  match dropWsRun last_line.reverse with
  | '.' :: rest => 3 ≤ (rest.takeWhile wordSlashCh).length
  | _ => false

/-- `prev_looks_complete` (reference_checker.py:1015-1024): the previous
accumulated line looks like the end of a complete reference. -/
def prevLooksComplete (last_line : List Char) : Bool :=
  endsYearB last_line || endsPagesB last_line || endsUrlB last_line ||
    endsExtB last_line || endsAccessedB last_line || endsVolB last_line ||
    endsEdB last_line || endsWordDotB last_line

/-- The MLA new-entry classification (reference_checker.py:1026-1052):
quote-opening lines always start an entry; author- or title-shaped lines
start one when the previous entry looks complete, with the
`United States`/`States` special cases. -/
def mlaIsNewRef (prev : Bool) (line : List Char) : Bool :=
  if line.head? = some '"' || line.head? = some '“' then true
  else if mlaP2 line then
    (if (eatLit (str "United States,") line).isSome then prev
     else if (eatLit (str "States,") line).isSome then false
     else prev)
  else if mlaP3a line || mlaP3b line then prev
  else false

/-- The line-accumulation loop of `split_mla_references`
(reference_checker.py:915-1067). -/
def splitMlaGo : List (List Char) → List (List Char) → List (List Char) →
    List (List Char)
  | [], refs, cur => if cur ≠ [] then emitIfLong refs (joinLines cur) else refs
  | l :: rest, refs, cur =>
    let is_indented := l.head? = some ' ' || l.head? = some '\t'
    let line := stripPy l
    if line = [] then splitMlaGo rest refs cur
    else if isPageHeaderLine line then splitMlaGo rest refs cur
    else if is_indented ∧ cur ≠ [] then splitMlaGo rest refs (cur ++ [line])
    else
      match mlaFindSplit line with
      | some (before, after) =>
        if before ≠ [] ∧ cur ≠ [] then
          splitMlaGo rest (emitIfLong refs (joinLines (cur ++ [before]))) [after]
        else if before ≠ [] then
          splitMlaGo rest (refs ++ [before]) [after]
        else splitMlaGo rest refs [after]
      | none =>
        if cur ≠ [] ∧ mlaIsNewRef (prevLooksComplete (cur.getLastD [])) line then
          splitMlaGo rest (emitIfLong refs (joinLines cur)) [line]
        else splitMlaGo rest refs (cur ++ [line])

/-- `split_mla_references` (reference_checker.py:915). -/
def split_mla_references (references_text : List (List Char)) :
    List (List Char) :=
  splitMlaGo references_text [] []

/-- `split_references` (reference_checker.py:904): style dispatch, APA by
default. -/
def split_references (references_text : List (List Char)) (citation_style : Style) :
    List (List Char) :=
  if citation_style = Style.MLA then split_mla_references references_text
  else split_apa_references references_text

/-- Python substring membership `needle in hay`. -/
def isSubstring (needle hay : List Char) : Bool := (strFind hay needle).isSome

/-! ## Reference parsing (`parse_apa_reference`, `parse_mla_reference`,
`parse_reference`) -/

/-- The closed `ref_type` enumeration. -/
inductive RefType where
  | journal : RefType
  | book : RefType
  | chapter : RefType
  | website : RefType
  | other : RefType
  deriving DecidableEq

/-- A Parsed Reference: the raw text plus the extracted fields (the APA
parser never fills `source`; `authors` may be `some []`, Python's `''`,
for title-first MLA entries). -/
structure ParsedRef where
  raw : List Char
  authors : Option (List Char)
  year : Option (List Char)
  title : Option (List Char)
  source : Option (List Char)
  doi : Option (List Char)
  ref_type : RefType
  deriving DecidableEq

/-- Leftmost `\((\d{4})[a-z]?\)`, returning group 1 (the four digits). -/
def apaParenYearGrp : List Char → Option (List Char)
  | [] => none
  | c :: rest =>
    if parenYearAtHead (c :: rest) then some (rest.take 4)
    else apaParenYearGrp rest

/-- The APA year field (reference_checker.py:1321-1328): the parenthesized
year's digits, else the first word-bounded `(19|20)\d{2}` run. -/
def apaYear (ref_text : List Char) : Option (List Char) :=
  match apaParenYearGrp ref_text with
  | some y => some y
  | none => findBare1920 ref_text

/-- The trailing-punctuation class `[\(\.,\s]` stripped from APA authors. -/
def authTrimCh (c : Char) : Bool :=
  c = '(' || c = '.' || c = ',' || isSpacePy c

/-- The APA authors field (reference_checker.py:1330-1337): the text before
the first occurrence of the extracted year, stripped and with trailing
punctuation/parenthesis removed; absent when empty or when the year starts
the entry. -/
def apaAuthors (ref_text : List Char) (year : Option (List Char)) :
    Option (List Char) :=
  match year with
  | none => none
  | some y =>
    match strFind ref_text y with
    | some pos =>
      if 0 < pos then
        let a := rstripP authTrimCh (stripPy (ref_text.take pos))
        if a ≠ [] then some a else none
      else none
    | none => none

/-- `\)\.` then trailing `\s*` (the tail of the title-position pattern). -/
def closeDotWs : List Char → Option (List Char)
  | ')' :: '.' :: r => some (dropWsRun r)
  | _ => none

/-- Match of `\(\d{4}[a-z]?\)\.\s*` at the head, returning the suffix after
the match. -/
def yearDotAt (l : List Char) : Option (List Char) :=
  match l with
  | '(' :: rest =>
    (match eatDigitsN 4 rest with
     | some ⟨r, _⟩ =>
       (match r with
        | c :: r2 => if isLowerAZ c then closeDotWs r2 else closeDotWs r
        | [] => none)
     | none => none)
  | _ => none

/-- `re.search(r'\(\d{4}[a-z]?\)\.\s*', ref_text)`: suffix after the
leftmost match. -/
def apaYearDotEnd : List Char → Option (List Char)
  | [] => none
  | c :: rest =>
    match yearDotAt (c :: rest) with
    | some r => some r
    | none => apaYearDotEnd rest

/-- `re.match(r'^([^\.]+\.)', after_year)`: group 1 runs through the first
period (at least one non-period character before it). -/
def titleThroughDot (after_year : List Char) : Option (List Char) :=
  match after_year with
  | c :: _ =>
    if c = '.' then none
    else
      let pre := after_year.takeWhile (fun d => d ≠ '.')
      if pre.length < after_year.length then some (pre ++ ['.'])
      else none
  | [] => none

/-- Closer test of the first quote fallback: position `j` holds `"` or `”`
followed by `,` or `.`. -/
def quoteCloseAt (l : List Char) (j : Nat) : Bool :=
  match l.drop j with
  | c :: d :: _ => (c = '"' || c = '”') && (d = ',' || d = '.')
  | _ => false

/-- First title fallback `["“](.+)["”][,\.]`
(reference_checker.py:1348): the greedy `(.+)` reaches from the first
opening quote to the last punctuation-followed closing quote. -/
def quoteFB1 (ref : List Char) : Option (List Char) :=
  let i := (ref.takeWhile (fun c => ¬ (c = '"' ∨ c = '“'))).length
  if i < ref.length then
    match ((List.range ref.length).filter
        (fun j => i + 2 ≤ j && quoteCloseAt ref j)).getLast? with
    | some j => some ((ref.drop (i + 1)).take (j - i - 1))
    | none => none
  else none

/-- Second title fallback `["“]([^"“]{10,})["”]`
(reference_checker.py:1352), content after one opener: the content class
excludes `"` and `“` but allows `”`, so the greedy run stops at the first
`"`/`“` and backtracks to the last closer at least 10 characters in. -/
def fb2At (rest : List Char) : Option (List Char) :=
  let stop := (rest.takeWhile (fun d => ¬ (d = '"' ∨ d = '“'))).length
  match ((List.range (stop + 1)).filter (fun p =>
      10 ≤ p &&
        (match (rest.drop p).head? with
         | some d => ((d = '"' || d = '”') : Bool)
         | none => false))).getLast? with
  | some p => some (rest.take p)
  | none => none

/-- Scan for the second title fallback's leftmost viable opener. -/
def quoteFB2Go : List Char → Option (List Char)
  | [] => none
  | c :: rest =>
    if c = '"' ∨ c = '“' then
      match fb2At rest with
      | some t => some t
      | none => quoteFB2Go rest
    else quoteFB2Go rest

/-- The APA title field (reference_checker.py:1339-1354): text between the
year parenthesis and the next period, else the quote fallbacks. -/
def apaTitle (ref_text : List Char) : Option (List Char) :=
  let t1 : Option (List Char) :=
    match apaYearDotEnd ref_text with
    | some after_year => (titleThroughDot after_year).map stripPy
    | none => none
  match t1 with
  | some t => some t
  | none =>
    match quoteFB1 ref_text with
    | some t => some t
    | none => quoteFB2Go ref_text

/-- Match of `10\.\d{4,}/[^\s]+` at the head, returning the matched text. -/
def doiAt (l : List Char) : Option (List Char) :=
  match l with
  | '1' :: '0' :: '.' :: rest =>
    let ds := rest.takeWhile isDigitCh
    if 4 ≤ ds.length then
      match rest.drop ds.length with
      | '/' :: r2 =>
        let tail := r2.takeWhile (fun c => ! isSpacePy c)
        if tail ≠ [] then some (str "10." ++ ds ++ '/' :: tail) else none
      | _ => none
    else none
  | _ => none

/-- `re.search(r'(10\.\d{4,}/[^\s]+)', ref_text)`: leftmost DOI. -/
def findDoi : List Char → Option (List Char)
  | [] => none
  | c :: rest =>
    match doiAt (c :: rest) with
    | some d => some d
    | none => findDoi rest

/-- The doi field: the DOI with trailing `.`/`,` stripped
(`.rstrip('.,')`). -/
def doiOf (ref_text : List Char) : Option (List Char) :=
  (findDoi ref_text).map (rstripP (fun c => c = '.' || c = ','))

/-- `\(Ed[s]?\.\)` at the head (the optional `s` is greedy). -/
def edMarkerAt (l : List Char) : Bool :=
  match l with
  | '(' :: 'E' :: 'd' :: 's' :: '.' :: ')' :: _ => true
  | '(' :: 'E' :: 'd' :: '.' :: ')' :: _ => true
  | _ => false

/-- Head of `\bIn\s+[A-Z].*\(Ed[s]?\.\)` given the preceding character. -/
def inEdHeadAt (prev : Option Char) (l : List Char) : Bool :=
  (match prev with
   | none => true
   | some p => ! isWordCh p) &&
  (match l with
   | 'I' :: 'n' :: r =>
     (match eatWs1 r with
      | some ⟨r2, _⟩ =>
        (match r2 with
         | d :: r3 => isUpperAZ d && reSearch edMarkerAt r3
         | [] => false)
      | none => false)
   | _ => false)

/-- `re.search(r'\bIn\s+[A-Z].*\(Ed[s]?\.\)', ref_text)` (chapter test). -/
def inEdSearch (ref_text : List Char) : Bool := go none ref_text
where
  go : Option Char → List Char → Bool
    | _, [] => false
    | prev, c :: rest => inEdHeadAt prev (c :: rest) || go (some c) rest

/-- `\d+\(\d+\)` at the head (volume/issue marker). -/
def numParenNumAt (l : List Char) : Bool :=
  match eatRun1 isDigitCh l with
  | none => false
  | some ⟨r1, _⟩ =>
    match r1 with
    | '(' :: r2 =>
      (match eatRun1 isDigitCh r2 with
       | some ⟨r3, _⟩ => r3.head? = some ')'
       | none => false)
    | _ => false

/-- `vol\.\s*\d+` at the head (applied to lowered text). -/
def volNumAt (l : List Char) : Bool :=
  match eatLit (str "vol.") l with
  | some ⟨r, _⟩ => (match dropWsRun r with | c :: _ => isDigitCh c | [] => false)
  | none => false

/-- Class `[A-Za-z\s&\-]` of the publisher-suffix pattern. -/
def pubClass1 (c : Char) : Bool :=
  isAlphaCh c || isSpacePy c || c = '&' || c = '-'

/-- The publisher-word alternation
`(Press|Publishers?|Publications?|Books?|Publishing|Inc\.?|LLC|Company|Co\.?)`,
each optional letter/dot expanded greedily-first. -/
def pubWords1 : List (List Char) :=
  str "Press" :: str "Publishers" :: str "Publisher" :: str "Publications" ::
    str "Publication" :: str "Books" :: str "Book" :: str "Publishing" ::
    str "Inc." :: str "Inc" :: str "LLC" :: str "Company" :: str "Co." ::
    str "Co" :: []

/-- Tail of the publisher-suffix pattern: a publisher word, optional dot,
trailing whitespace, end of string. -/
def pubTail (t : List Char) : Bool :=
  pubWords1.any (fun w =>
    match eatLit w t with
    | some ⟨r, _⟩ => dropWsRun (eatOptCh '.' r).1 = []
    | none => false)

/-- After the capital of the publisher-suffix pattern: consume
`[A-Za-z\s&\-]+` one character at a time, trying the publisher tail at
every point after at least one consumed character. -/
def pubScan : List Char → Bool
  | [] => false
  | c :: rest => pubClass1 c && (pubTail rest || pubScan rest)

/-- Head of
`\.\s*[A-Z][A-Za-z\s&\-]+\s*(Press|...)\.?\s*$` (reference_checker.py:1305). -/
def pubSuffix1At (l : List Char) : Bool :=
  match l with
  | '.' :: r1 =>
    (match dropWsRun r1 with
     | c :: r2 => isUpperAZ c && pubScan r2
     | [] => false)
  | _ => false

/-- The known-publisher alternation of reference_checker.py:1307
(matched case-insensitively). -/
def pubNames : List (List Char) :=
  str "jossey-bass" :: str "wiley" :: str "springer" :: str "elsevier" ::
    str "sage" :: str "routledge" :: str "mcgraw-hill" :: str "pearson" ::
    str "cambridge" :: str "oxford" :: str "harvard" :: str "mit" ::
    str "yale" :: str "stanford" :: str "norton" :: str "penguin" ::
    str "random house" :: str "simon & schuster" :: str "harpercollins" ::
    str "macmillan" :: str "houghton mifflin" :: str "cengage" ::
    str "guilford" :: str "erlbaum" :: str "psychology press" ::
    str "academic press" :: str "shambhala" :: str "new harbinger" ::
    str "bantam" :: str "vintage" :: str "knopf" :: []

/-- Head of `\.\s*(Jossey-Bass|...)\.?\s*$` (`re.IGNORECASE`). -/
def pubKnownAt (l : List Char) : Bool :=
  match l with
  | '.' :: r1 =>
    pubNames.any (fun w =>
      match eatLitCI w (dropWsRun r1) with
      | some ⟨r, _⟩ => dropWsRun (eatOptCh '.' r).1 = []
      | none => false)
  | _ => false

/-- Head of `[A-Z][a-z]+,\s*[A-Z]{2}:` (city-state marker). -/
def cityStateAt (l : List Char) : Bool :=
  match eatCapLowers l with
  | none => false
  | some ⟨r1, _⟩ =>
    match r1 with
    | ',' :: r2 =>
      (match dropWsRun r2 with
       | a :: b :: ':' :: _ => isUpperAZ a && isUpperAZ b
       | _ => false)
    | _ => false

/-- Head of
`:\s*[A-Z][a-z]+\s+(Press|Publishers?|Publications?|Books?|Publishing)`
(the capture group is a bare prefix, no trailing anchor). -/
def colonPublisherAt (l : List Char) : Bool :=
  match l with
  | ':' :: r1 =>
    (match eatCapLowers (dropWsRun r1) with
     | none => false
     | some ⟨r2, _⟩ =>
       match eatWs1 r2 with
       | none => false
       | some ⟨r3, _⟩ =>
         (str "Press" :: str "Publishers" :: str "Publisher" ::
             str "Publications" :: str "Publication" :: str "Books" ::
             str "Book" :: str "Publishing" :: []).any
           (fun w => (eatLit w r3).isSome))
  | _ => false

/-- Head of `\(\d+(st|nd|rd|th)\s+ed\.\)` (applied to lowered text). -/
def edParenAt (l : List Char) : Bool :=
  match l with
  | '(' :: r1 =>
    (match eatRun1 isDigitCh r1 with
     | some ⟨r2, _⟩ =>
       (str "st" :: str "nd" :: str "rd" :: str "th" :: []).any (fun sfx =>
         match eatLit sfx r2 with
         | some ⟨r3, _⟩ =>
           (match eatWs1 r3 with
            | some ⟨r4, _⟩ => (eatLit (str "ed.)") r4).isSome
            | none => false)
         | none => false)
     | none => false)
  | _ => false

/-- Class `[A-Za-z\-]` of the terminal capitalized-word pattern. -/
def azDashCh (c : Char) : Bool := isAlphaCh c || c = '-'

/-- Head of `\.\s*[A-Z][A-Za-z\-]+\.?\s*$` (default book test). -/
def dotCapWordEndAt (l : List Char) : Bool :=
  match l with
  | '.' :: r1 =>
    (match dropWsRun r1 with
     | c :: r2 =>
       isUpperAZ c &&
         (match eatRun1 azDashCh r2 with
          | some ⟨r3, _⟩ => dropWsRun (eatOptCh '.' r3).1 = []
          | none => false)
     | [] => false)
  | _ => false

/-- The APA `ref_type` cascade (reference_checker.py:1298-1314), first
match wins. -/
def apaRefType (ref_text : List Char) : RefType :=
  let text_lower := lowerStr ref_text
  if inEdSearch ref_text then RefType.chapter
  else if isSubstring (str "retrieved from") text_lower ∨
      (isSubstring (str "http") text_lower ∧
        ¬ isSubstring (str "doi.org") text_lower) then RefType.website
  else if reSearch numParenNumAt ref_text ∨ reSearch volNumAt text_lower then
    RefType.journal
  else if reSearch pubSuffix1At ref_text then RefType.book
  else if reSearch pubKnownAt ref_text then RefType.book
  else if reSearch cityStateAt ref_text ∨ reSearch colonPublisherAt ref_text then
    RefType.book
  else if reSearch edParenAt text_lower then RefType.book
  else if ¬ reSearch numParenNumAt ref_text ∧
      ¬ isSubstring (str "http") text_lower ∧
      reSearch dotCapWordEndAt ref_text then RefType.book
  else RefType.other

/-- `parse_apa_reference` (reference_checker.py:1284). -/
def parse_apa_reference (ref_text : List Char) : ParsedRef :=
  let year := apaYear ref_text
  { raw := ref_text
    authors := apaAuthors ref_text year
    year := year
    title := apaTitle ref_text
    source := none
    doi := doiOf ref_text
    ref_type := apaRefType ref_text }

/-- Head of `,\s*no\.\s*\d+` (MLA issue marker, on lowered text). -/
def commaNoNumAt (l : List Char) : Bool :=
  match l with
  | ',' :: r1 =>
    (match eatLit (str "no.") (dropWsRun r1) with
     | some ⟨r2, _⟩ => (match dropWsRun r2 with | c :: _ => isDigitCh c | [] => false)
     | none => false)
  | _ => false

/-- Head of `pp\.\s*\d+` (MLA page marker, on lowered text). -/
def ppNumAt (l : List Char) : Bool :=
  match eatLit (str "pp.") l with
  | some ⟨r, _⟩ => (match dropWsRun r with | c :: _ => isDigitCh c | [] => false)
  | none => false

/-- The MLA `ref_type` cascade (reference_checker.py:1221-1233). -/
def mlaRefType (ref_text : List Char) : RefType :=
  let text_lower := lowerStr ref_text
  if reSearch volNumAt text_lower ∨ reSearch commaNoNumAt text_lower ∨
      reSearch ppNumAt text_lower then RefType.journal
  else if isSubstring (str "doi.org") text_lower then RefType.journal
  else if isSubstring (str "www.") text_lower ∨ isSubstring (str "http") text_lower then
    RefType.website
  else if (str "press" :: str "publisher" :: str "publishing" ::
      str "books" :: []).any (fun pub => isSubstring pub text_lower) then
    RefType.book
  else RefType.other

/-- The lazy author pattern `^([^"]+?)\.\s+["\"]` of
reference_checker.py:1250 (both class quotes are the straight quote):
smallest `i ≥ 1` such that the first `i` characters are quote-free and are
followed by a period, whitespace and a quote; returns `i`. -/
def mlaAuthorLazyGo (i : Nat) : List Char → Option Nat
  | [] => none
  | c :: rest =>
    if c = '"' then none
    else if c = '.' && decide (1 ≤ i) &&
        (match eatWs1 rest with
         | some ⟨r, _⟩ => r.head? = some '"'
         | none => false) then some i
    else mlaAuthorLazyGo (i + 1) rest

/-- The MLA authors field (reference_checker.py:1245-1257): empty for
quote-first entries (both `startswith` arguments in the source are the
straight quote), else the lazy author-then-quote match, else the text
before the first period when shorter than 100 characters. -/
def mlaAuthors (ref_text : List Char) : Option (List Char) :=
  if ref_text.head? = some '"' ∨ ref_text.head? = some '"' then some []
  else
    match mlaAuthorLazyGo 0 ref_text with
    | some i => some (stripPy (ref_text.take i))
    | none =>
      match strFind ref_text ['.'] with
      | some fp => if 0 < fp ∧ fp < 100 then some (stripPy (ref_text.take fp)) else none
      | none => none

/-- The MLA title pattern `["“]([^"”]+)["”]`
(reference_checker.py:1260): leftmost opener whose nonempty content run is
closed by `"` or `”`; returns the content and the suffix after the closing
quote. -/
def mlaTitleGo : List Char → Option (List Char × List Char)
  | [] => none
  | c :: rest =>
    if c = '"' ∨ c = '“' then
      let content := rest.takeWhile (fun d => ¬ (d = '"' ∨ d = '”'))
      let r := rest.drop content.length
      if decide (content ≠ []) && (match r with | d :: _ => ((d = '"' || d = '”') : Bool) | [] => false) then
        some (content, r.tail)
      else mlaTitleGo rest
    else mlaTitleGo rest

/-- The MLA source field (reference_checker.py:1270-1279): between the
title's closing quote and the last occurrence of the year, else everything
after the title. -/
def mlaSource (titleRes : Option (List Char × List Char))
    (year : Option (List Char)) : Option (List Char) :=
  match titleRes, year with
  | some (_, afterT), some y =>
    let after_title := stripPy afterT
    (match strRfind after_title y with
     | some yp =>
       if 0 < yp then
         some (rstripP (fun c => c = ',' || c = '.') (stripPy (after_title.take yp)))
       else none
     | none => none)
  | some (_, afterT), none =>
    some (rstripP (fun c => c = ',' || c = '.') (stripPy afterT))
  | none, _ => none

/-- `parse_mla_reference` (reference_checker.py:1200): the year is the
first word-bounded `(19|20)\d{2}` run inside the final 50 characters. -/
def parse_mla_reference (ref_text : List Char) : ParsedRef :=
  let titleRes := mlaTitleGo ref_text
  let year := findBare1920 (ref_text.drop (ref_text.length - 50))
  { raw := ref_text
    authors := mlaAuthors ref_text
    year := year
    title := titleRes.map (fun t => stripPy t.1)
    source := mlaSource titleRes year
    doi := doiOf ref_text
    ref_type := mlaRefType ref_text }

/-- `parse_reference` (reference_checker.py:1186): style dispatch, APA by
default (also for UNKNOWN). -/
def parse_reference (ref_text : List Char) (citation_style : Style) : ParsedRef :=
  if citation_style = Style.MLA then parse_mla_reference ref_text
  else parse_apa_reference ref_text

/-! ## Concrete inputs and specification-side definitions used by the
claim theorems -/

/-- The C3 reference list. -/
def c3Refs : List Pair := [(str "Smith, J., & Jones, K.", str "2020")]

/-- The C3 in-text citations: exact full-author match and `et al.`
first-author fallback. -/
def c3Cites : List Cite :=
  [(str "Smith & Jones", some (str "2020")), (str "Smith et al.", some (str "2020"))]

/-- A reference list holding the same `(author, year)` pair twice. -/
def c2DupRefs : List Pair :=
  [(str "Smith, J.", str "2020"), (str "Smith, J.", str "2020")]

/-- Characters an already-normalized author word may contain: lowercase
letters, digits, hyphens. -/
def normChar (c : Char) : Bool := isLowerAZ c || isDigitCh c || c = '-'

/-- An already-normalized author word: at least two characters, only
`normChar` characters, and not a connector word (`et`, `and`) that the
normalizer itself rewrites. -/
def NormWord (w : List Char) : Prop :=
  2 ≤ w.length ∧ (∀ c ∈ w, normChar c) ∧ w ≠ str "et" ∧ w ≠ str "and"

/-- A string in normalized author shape: single-space-joined normalized
words. -/
def NormShape (y : List Char) : Prop :=
  (∀ w ∈ wordsOf y, NormWord w) ∧ y = joinWords (wordsOf y)

/-- Spec-side location (by index) of the leftmost parenthesized year
`\((\d{4})[a-z]?\)`, following the claim's wording "the 4 digits inside
parentheses (an optional trailing disambiguation letter allowed)". -/
def specApaParenYear (l : List Char) : Option (List Char) :=
  (List.range l.length).findSome? (fun i =>
    if parenYearAtHead (l.drop i) then some (((l.drop i).tail).take 4)
    else none)

/-- Spec-side location (by index) of the first word-bounded four-digit run
beginning with `19` or `20`, the amended fallback rule. -/
def specBare1920 (l : List Char) : Option (List Char) :=
  (List.range l.length).findSome? (fun i =>
    if bare1920At (if i = 0 then none else (l.drop (i - 1)).head?) (l.drop i)
    then some ((l.drop i).take 4)
    else none)

/-- The claim's fallback rule exactly as stated — "the first bare 4-digit
run": a maximal digit run of length four (not preceded by a digit). -/
def claimBare4Run (l : List Char) : Option (List Char) :=
  (List.range l.length).findSome? (fun i =>
    let prevNonDigit : Bool :=
      if i = 0 then true
      else match (l.drop (i - 1)).head? with
           | some p => ! isDigitCh p
           | none => true
    let run := (l.drop i).takeWhile isDigitCh
    if prevNonDigit && run.length = 4 then some run else none)

/-- C5/C10 demo: a document with no reference-section header. -/
def c5Demo1 : List (List Char) := [str "no references here"]

/-- C5 demo: header scores APA `+2` while the body's MLA-shaped citation
scores MLA `+2` — a tie. -/
def c5Demo2 : List (List Char) :=
  [str "(Smith 12)", str "References", str "short a.", str "short b."]

/-- C5/C10 demo: APA-shaped reference lines under a `References` header. -/
def c5Demo3 : List (List Char) :=
  [str "References", str "Smith, J. A. (2020). Title here okay.",
   str "Jones, K. B. (2019). Another fine title."]

/-- C6 demo line: one well-formed APA reference line. -/
def c6Demo : List (List Char) := [str "Smith, J. (2020). A study of things."]

/-- C4 demo: a year-less MLA citation and a matching reference. -/
def c4Cites : List Cite := [(str "Berk", none)]

/-- C4 demo reference list. -/
def c4Refs : List Pair := [(str "Berk, Laura", str "2013")]

/-- C2 witness inputs: one citation with no matching reference. -/
def c2WCites : List Cite := [(str "Doe", some (str "2019"))]

/-- A citation the resolution step leaves unmatched (the `found = False`
path of the citation loop). -/
def unresolvedBy (lk : Lookup) (x : Cite) : Bool :=
  match resolveCite lk x with
  | some (false, _) => true
  | _ => false

/-- A key occurs in the lookup. -/
def hasRKey (lk : Lookup) (k : RKey) : Prop := ∃ vs, (k, vs) ∈ lk

/-! ## Claim theorems -/

/-- C9: for every input string and citation style the reference parser is a
total function — every extraction step that fails leaves its field absent —
and the returned record's `raw` field equals the input text verbatim. -/
theorem c9_parse_raw_verbatim (ref_text : List Char) (citation_style : Style) :
    (parse_reference ref_text citation_style).raw = ref_text := by
  unfold parse_reference parse_mla_reference parse_apa_reference
  split <;> rfl

/-- C3: the reference "Smith, J., & Jones, K." (2020) resolves both the
exact full-author citation ("Smith & Jones", 2020) and the first-author
fallback ("Smith et al.", 2020), so the missing and uncited lists are both
empty. -/
theorem c3_full_and_et_al_resolution :
    match_citations_to_references c3Cites c3Refs = some ([], []) := by decide

/-- C2 counterexample: with duplicate `(author, year)` reference pairs and
no citations, the uncited list keeps both copies — it is not
deduplicated, contradicting the claim that both output lists contain no
duplicate pairs. -/
theorem c2_counterexample_dup_uncited :
    match_citations_to_references [] c2DupRefs = some (c2DupRefs, []) ∧
      ¬ c2DupRefs.Nodup := by
  constructor
  · decide
  · decide

/-- C7 counterexample: normalizing "Smith, Et, Al" yields "smith et al",
and normalizing that output again yields "smith" — `normalize_author`
composed with itself differs from itself, refuting idempotence as stated. -/
theorem c7_counterexample_et_al :
    normalize_author (normalize_author (str "Smith, Et, Al")) ≠
      normalize_author (str "Smith, Et, Al") := by decide

/-- C8 counterexample: the entry "Plato. Republic. 3021." has no
parenthesized year and its first bare 4-digit run is "3021", so the claim
as stated predicts `year = "3021"` for both parsers (the entry lies inside
the final 50 characters); both parsers return no year, because the code
additionally requires the run to begin with `19` or `20`. -/
theorem c8_counterexample_3021 :
    specApaParenYear (str "Plato. Republic. 3021.") = none ∧
    claimBare4Run (str "Plato. Republic. 3021.") = some (str "3021") ∧
    (str "Plato. Republic. 3021.").length ≤ 50 ∧
    (parse_apa_reference (str "Plato. Republic. 3021.")).year = none ∧
    (parse_mla_reference (str "Plato. Republic. 3021.")).year = none := by
  refine ⟨by decide, by decide, by decide, ?_, ?_⟩
  · decide
  · decide

/-- Order-preserving deduplication yields a sublist. -/
theorem dedupFirstGo_sublist {α : Type} [DecidableEq α] (seen : List α)
    (l : List α) : (dedupFirstGo seen l).Sublist l := by
  induction l generalizing seen with
  | nil => simp [dedupFirstGo]
  | cons a t ih =>
    unfold dedupFirstGo
    by_cases h : a ∈ seen
    · simp only [if_pos h]
      exact (ih seen).trans (List.sublist_cons_self a t)
    · simp only [if_neg h]
      exact (ih (seen ++ [a])).cons₂ a

/-- Order-preserving deduplication yields a duplicate-free list avoiding
the `seen` accumulator. -/
theorem dedupFirstGo_spec {α : Type} [DecidableEq α] (seen : List α)
    (l : List α) :
    (dedupFirstGo seen l).Nodup ∧ ∀ x ∈ dedupFirstGo seen l, x ∉ seen := by
  induction l generalizing seen with
  | nil => simp [dedupFirstGo]
  | cons a t ih =>
    unfold dedupFirstGo
    by_cases h : a ∈ seen
    · simpa [if_pos h] using ih seen
    · simp only [if_neg h]
      obtain ⟨hn, hm⟩ := ih (seen ++ [a])
      constructor
      · refine List.nodup_cons.mpr ⟨fun hx => ?_, hn⟩
        have := hm a hx
        simp at this
      · intro x hx hxs
        rcases List.mem_cons.mp hx with rfl | hx'
        · exact h hxs
        · exact hm x hx' (List.mem_append_left _ hxs)

/-- The citation loop's missing list is the input filtered to the
unresolved citations, appended to the accumulator. -/
theorem goCites_missing (lk : Lookup) (cs : List Cite) :
    ∀ cited missing fc fm, goCites lk cs cited missing = some (fc, fm) →
      fm = missing ++ cs.filter (unresolvedBy lk) := by
  induction cs with
  | nil =>
    intro cited missing fc fm h
    unfold goCites at h
    injection h with h'
    have := congrArg Prod.snd h'
    simpa using this.symm
  | cons c t ih =>
    intro cited missing fc fm h
    unfold goCites at h
    rcases hr : resolveCite lk c with _ | ⟨found, adds⟩
    · rw [hr] at h; exact absurd h (by simp)
    · rw [hr] at h
      simp only at h
      have hu : unresolvedBy lk c = !found := by
        unfold unresolvedBy
        rw [hr]
        cases found <;> rfl
      have := ih _ _ _ _ h
      cases found with
      | false => simp [List.filter_cons, hu] at this ⊢; simpa [this]
      | true => simp [List.filter_cons, hu] at this ⊢; exact this

/-- C2 (amended): for every pair of input lists on which the matcher
returns, the missing-citations list contains no duplicates and preserves
input order (order of first occurrence), and the uncited-references list
preserves input order and is duplicate-free whenever the reference pairs
are pairwise distinct — the source deduplicates `missing_refs` but not
`uncited_refs`, so duplicate `(author, year)` reference pairs are emitted
repeatedly. -/
theorem c2_matcher_output_shape (intext : List Cite) (refs : List Pair)
    (u : List Pair) (m : List Cite)
    (h : match_citations_to_references intext refs = some (u, m)) :
    m.Nodup ∧ m.Sublist intext ∧ u.Sublist refs ∧ (refs.Nodup → u.Nodup) := by
  unfold match_citations_to_references at h
  simp only at h
  rcases hg : goCites (buildLookup refs) intext [] [] with _ | ⟨cited, missing⟩
  · rw [hg] at h; exact absurd h (by simp)
  · rw [hg] at h
    simp only at h
    injection h with h'
    have hu : u = refs.filter (fun ay => decide (ay ∉ cited)) :=
      (congrArg Prod.fst h').symm
    have hm : m = dedupFirst missing := (congrArg Prod.snd h').symm
    have hmiss := goCites_missing (buildLookup refs) intext [] [] cited missing hg
    subst hu hm
    refine ⟨(dedupFirstGo_spec [] missing).1, ?_, List.filter_sublist refs, ?_⟩
    · refine (dedupFirstGo_sublist [] missing).trans ?_
      rw [hmiss]
      simpa using List.filter_sublist intext
    · intro hnd
      exact hnd.filter _

/-- C2 witness: one unmatched citation against an empty reference list. -/
theorem c2_witness_shape :
    ([(str "Doe", some (str "2019"))] : List Cite).Nodup ∧
    List.Sublist ([(str "Doe", some (str "2019"))] : List Cite) c2WCites ∧
    List.Sublist ([] : List Pair) ([] : List Pair) ∧
    ([] : List Pair).Nodup := by
  have h := c2_matcher_output_shape c2WCites [] []
    [(str "Doe", some (str "2019"))] (by decide)
  exact ⟨h.1, h.2.1, h.2.2.1, h.2.2.2 (by decide)⟩

/-- `ddAppend` preserves existing keys. -/
theorem ddAppend_hasRKey_mono (lk : Lookup) (k' : RKey) (v : Pair) (k : RKey)
    (h : hasRKey lk k) : hasRKey (ddAppend lk k' v) k := by
  induction lk with
  | nil => obtain ⟨vs, hvs⟩ := h; simp at hvs
  | cons e t ih =>
    obtain ⟨k0, vs0⟩ := e
    obtain ⟨vs, hvs⟩ := h
    unfold ddAppend
    by_cases hk : k0 = k'
    · simp only [if_pos hk]
      rcases List.mem_cons.mp hvs with heq | hmem
      · have hkeq : k0 = k := (congrArg Prod.fst heq).symm
        exact ⟨vs0 ++ [v], by rw [← hkeq]; exact List.mem_cons_self _ _⟩
      · exact ⟨vs, List.mem_cons_of_mem _ hmem⟩
    · simp only [if_neg hk]
      rcases List.mem_cons.mp hvs with heq | hmem
      · have hkeq : k0 = k := (congrArg Prod.fst heq).symm
        exact ⟨vs0, by rw [← hkeq]; exact List.mem_cons_self _ _⟩
      · obtain ⟨vs', hvs'⟩ := ih ⟨vs, hmem⟩
        exact ⟨vs', List.mem_cons_of_mem _ hvs'⟩

/-- `ddAppend` establishes its own key. -/
theorem ddAppend_hasRKey_self (lk : Lookup) (k : RKey) (v : Pair) :
    hasRKey (ddAppend lk k v) k := by
  induction lk with
  | nil => exact ⟨[v], by simp [ddAppend]⟩
  | cons e t ih =>
    obtain ⟨k0, vs0⟩ := e
    unfold ddAppend
    by_cases hk : k0 = k
    · simp only [if_pos hk]
      exact ⟨vs0 ++ [v], by rw [← hk]; exact List.mem_cons_self _ _⟩
    · simp only [if_neg hk]
      obtain ⟨vs', hvs'⟩ := ih
      exact ⟨vs', List.mem_cons_of_mem _ hvs'⟩

/-- One build step preserves existing keys. -/
theorem buildStep_hasRKey_mono (lk : Lookup) (ay : Pair) (k : RKey)
    (h : hasRKey lk k) : hasRKey (buildStep lk ay) k := by
  unfold buildStep
  dsimp only
  split
  · exact ddAppend_hasRKey_mono _ _ _ _ h
  · split
    · exact ddAppend_hasRKey_mono _ _ _ _ (ddAppend_hasRKey_mono _ _ _ _ h)
    · exact ddAppend_hasRKey_mono _ _ _ _ h

/-- One build step establishes the full normalized author/year key. -/
theorem buildStep_hasRKey_self (lk : Lookup) (ay : Pair) :
    hasRKey (buildStep lk ay) (normalize_author ay.1, normalize_year ay.2) := by
  unfold buildStep
  dsimp only
  split
  · exact ddAppend_hasRKey_self _ _ _
  · split
    · exact ddAppend_hasRKey_mono _ _ _ _ (ddAppend_hasRKey_self _ _ _)
    · exact ddAppend_hasRKey_self _ _ _

/-- The lookup fold preserves existing keys. -/
theorem buildFold_hasRKey_mono (refs : List Pair) (init : Lookup) (k : RKey)
    (h : hasRKey init k) : hasRKey (refs.foldl buildStep init) k := by
  induction refs generalizing init with
  | nil => simpa using h
  | cons q t ih => exact ih _ (buildStep_hasRKey_mono _ _ _ h)

/-- Every reference's full normalized key occurs in the lookup. -/
theorem buildLookup_hasKey (refs : List Pair) (p : Pair) (hp : p ∈ refs) :
    hasRKey (buildLookup refs) (normalize_author p.1, normalize_year p.2) := by
  unfold buildLookup
  suffices h : ∀ init, hasRKey (refs.foldl buildStep init)
      (normalize_author p.1, normalize_year p.2) from h []
  induction refs with
  | nil => simp at hp
  | cons q t ih =>
    intro init
    rcases List.mem_cons.mp hp with rfl | hmem
    · exact buildFold_hasRKey_mono t _ _ (buildStep_hasRKey_self init p)
    · exact ih hmem (buildStep init q)

/-- When the year-less resolution loop traverses the whole lookup without
finding the citation, no key matches it fully or by first word. -/
theorem scanMLA_false_all (nc : List Char) (lk : Lookup) (v : List Pair)
    (h : scanMLA nc lk = some (false, v)) :
    ∀ e ∈ lk, nc ≠ e.1.1 ∧ ∀ w rest, wordsOf e.1.1 = w :: rest → nc ≠ w := by
  induction lk with
  | nil => simp
  | cons e t ih =>
    obtain ⟨k, vs⟩ := e
    unfold scanMLA at h
    by_cases hk : nc = k.1
    · rw [if_pos hk] at h
      exact absurd h (by simp)
    · rw [if_neg hk] at h
      rcases hw : wordsOf k.1 with _ | ⟨w, ws⟩
      · rw [hw] at h; exact absurd h (by simp)
      · rw [hw] at h
        simp only at h
        by_cases hww : nc = w
        · rw [if_pos hww] at h; exact absurd h (by simp)
        · rw [if_neg hww] at h
          intro e' he'
          rcases List.mem_cons.mp he' with rfl | hmem
          · refine ⟨hk, fun w' rest' hwr => ?_⟩
            rw [hw] at hwr
            injection hwr with h1 _
            rw [← h1]
            exact hww
          · exact ih h e' hmem

/-- C4: an in-text citation with no year component is resolved against any
reference whose normalized author sequence — or its first author alone —
equals the citation's normalized author, regardless of the reference's
year, and is therefore never reported missing solely for lacking a year. -/
theorem c4_yearless_citation_resolved (intext : List Cite) (refs : List Pair)
    (a ra ry : List Char) (u : List Pair) (m : List Cite)
    (hc : (a, none) ∈ intext) (hr : (ra, ry) ∈ refs)
    (hmatch : extract_last_name_from_citation a = normalize_author ra ∨
      (wordsOf (normalize_author ra)).head? =
        some (extract_last_name_from_citation a))
    (hres : match_citations_to_references intext refs = some (u, m)) :
    (a, none) ∉ m := by
  intro hmem
  unfold match_citations_to_references at hres
  simp only at hres
  rcases hg : goCites (buildLookup refs) intext [] [] with _ | ⟨cited, missing⟩
  · rw [hg] at hres; exact absurd hres (by simp)
  · rw [hg] at hres
    simp only at hres
    injection hres with h'
    have hm : m = dedupFirst missing := (congrArg Prod.snd h').symm
    have hmiss := goCites_missing (buildLookup refs) intext [] [] cited missing hg
    have h1 : (a, none) ∈ missing := by
      refine (dedupFirstGo_sublist [] missing).subset ?_
      show (a, none) ∈ dedupFirst missing
      rw [← hm]; exact hmem
    rw [hmiss] at h1
    simp only [List.nil_append] at h1
    have h2 : unresolvedBy (buildLookup refs) (a, none) = true :=
      (List.mem_filter.mp h1).2
    unfold unresolvedBy at h2
    have hrc : resolveCite (buildLookup refs) (a, none) =
        scanMLA (extract_last_name_from_citation a) (buildLookup refs) := rfl
    rw [hrc] at h2
    rcases hs : scanMLA (extract_last_name_from_citation a) (buildLookup refs)
      with _ | ⟨found, v⟩
    · rw [hs] at h2; exact absurd h2 (by simp)
    · rw [hs] at h2
      cases found with
      | true => exact absurd h2 (by simp)
      | false =>
        obtain ⟨vs, hvs⟩ := buildLookup_hasKey refs (ra, ry) hr
        have hall := scanMLA_false_all _ _ _ hs
          ((normalize_author ra, normalize_year ry), vs) hvs
        rcases hmatch with heq | hhead
        · exact hall.1 heq
        · rcases hw : wordsOf (normalize_author ra) with _ | ⟨w, ws⟩
          · rw [hw] at hhead; simp at hhead
          · rw [hw] at hhead
            simp only [List.head?_cons, Option.some.injEq] at hhead
            exact (hall.2 w ws hw) hhead.symm

/-- C4 witness: the year-less MLA citation ("Berk", –) is resolved against
"Berk, Laura" (2013) via the first-author form, so it is absent from the
(empty) missing list. -/
theorem c4_witness :
    ((str "Berk", none) : Cite) ∉ ([] : List Cite) :=
  c4_yearless_citation_resolved c4Cites c4Refs (str "Berk") (str "Berk, Laura")
    (str "2013") [] [] (by decide) (by decide) (Or.inr (by decide)) (by decide)

/-! ## C6: segmenter output floor -/

theorem emitIfLong_inv {refs : List (List Char)} {t : List Char}
    (h : ∀ e ∈ refs, 20 < e.length) :
    ∀ e ∈ emitIfLong refs t, 20 < e.length := by
  intro e he
  by_cases h20 : 20 < t.length
  · rw [emitIfLong, if_pos h20] at he
    rcases List.mem_append.mp he with h1 | h1
    · exact h e h1
    · rw [List.mem_singleton] at h1; subst h1; exact h20
  · rw [emitIfLong, if_neg h20] at he
    exact h e he

theorem mlaSplitGo_before_long :
    ∀ (fuel : Nat) (preRev l b a : List Char),
      mlaSplitGo fuel preRev l = some (b, a) → 40 < b.length := by
  intro fuel
  induction fuel with
  | zero =>
    intro preRev l b a h
    cases l <;> simp [mlaSplitGo] at h
  | succ n ih =>
    intro preRev l b a h
    cases l with
    | nil => simp [mlaSplitGo] at h
    | cons c rest =>
      rw [mlaSplitGo] at h
      cases hm : matchMlaMidAt (c :: rest) with
      | none =>
        rw [hm] at h
        exact ih _ _ _ _ h
      | some pr =>
        obtain ⟨⟨g2, hg2⟩, ⟨e2, he2⟩⟩ := pr
        rw [hm] at h
        dsimp only at h
        split at h
        · exact ih _ _ _ _ h
        · split at h
          · exact ih _ _ _ _ h
          · rename_i h40
            rw [Option.some.injEq, Prod.mk.injEq] at h
            obtain ⟨rfl, rfl⟩ := h
            omega

theorem splitApaGo_inv :
    ∀ (lines refs cur : List (List Char)),
      (∀ e ∈ refs, 20 < e.length) →
      ∀ e ∈ splitApaGo lines refs cur, 20 < e.length := by
  intro lines
  induction lines with
  | nil =>
    intro refs cur hinv e he
    rw [splitApaGo] at he
    split at he
    · exact emitIfLong_inv hinv e he
    · exact hinv e he
  | cons l rest ih =>
    intro refs cur hinv e he
    rw [splitApaGo] at he
    split at he
    · exact ih _ _ hinv e he
    · cases hm : apaFindSplit (stripPy l) with
      | some pr =>
        obtain ⟨before, after⟩ := pr
        rw [hm] at he
        dsimp only at he
        split at he
        · exact ih _ _ (emitIfLong_inv hinv) e he
        · split at he
          · refine ih _ _ (fun x hx => ?_) e he
            by_cases h20 : 20 < before.length
            · rw [if_pos h20] at hx
              rcases List.mem_append.mp hx with h1 | h1
              · exact hinv x h1
              · rw [List.mem_singleton] at h1; subst h1; exact h20
            · rw [if_neg h20] at hx
              exact hinv x hx
          · exact ih _ _ hinv e he
      | none =>
        rw [hm] at he
        dsimp only at he
        split at he
        · exact ih _ _ (emitIfLong_inv hinv) e he
        · exact ih _ _ hinv e he

theorem splitMlaGo_inv :
    ∀ (lines refs cur : List (List Char)),
      (∀ e ∈ refs, 20 < e.length) →
      ∀ e ∈ splitMlaGo lines refs cur, 20 < e.length := by
  intro lines
  induction lines with
  | nil =>
    intro refs cur hinv e he
    rw [splitMlaGo] at he
    split at he
    · exact emitIfLong_inv hinv e he
    · exact hinv e he
  | cons l rest ih =>
    intro refs cur hinv e he
    rw [splitMlaGo] at he
    split at he
    · exact ih _ _ hinv e he
    · split at he
      · exact ih _ _ hinv e he
      · split at he
        · exact ih _ _ hinv e he
        · cases hm : mlaFindSplit (stripPy l) with
          | some pr =>
            obtain ⟨before, after⟩ := pr
            rw [hm] at he
            dsimp only at he
            have h40 : 40 < before.length :=
              mlaSplitGo_before_long _ _ _ _ _ hm
            split at he
            · exact ih _ _ (emitIfLong_inv hinv) e he
            · split at he
              · refine ih _ _ (fun x hx => ?_) e he
                rcases List.mem_append.mp hx with h1 | h1
                · exact hinv x h1
                · rw [List.mem_singleton] at h1; subst h1; omega
              · exact ih _ _ hinv e he
          | none =>
            rw [hm] at he
            dsimp only at he
            split at he
            · exact ih _ _ (emitIfLong_inv hinv) e he
            · exact ih _ _ hinv e he

/-- C6: every entry in the list returned by `split_references` (for either
style, hence by `split_apa_references` or `split_mla_references`) is
strictly longer than 20 characters: short fragments are dropped by the
segmenters' noise floor. -/
theorem c6_split_entries_long (lines : List (List Char)) (style : Style)
    (e : List Char) (he : e ∈ split_references lines style) :
    20 < e.length := by
  unfold split_references split_mla_references split_apa_references at he
  split at he
  · exact splitMlaGo_inv lines [] [] (by simp) e he
  · exact splitApaGo_inv lines [] [] (by simp) e he

theorem c6_witness :
    (str "Smith, J. (2020). A study of things.") ∈
      split_references c6Demo Style.APA ∧
    20 < (str "Smith, J. (2020). A study of things.").length :=
  ⟨by decide, c6_split_entries_long c6Demo Style.APA _ (by decide)⟩

/-! ## C5/C10: style-detector case analysis -/

theorem headerScorePair_pos :
    ∀ (ps : List (List Char)), (ps.findIdx? isHeaderLine).isSome →
      2 ≤ (headerScorePair ps).1 + (headerScorePair ps).2 := by
  intro ps
  induction ps with
  | nil => intro h; simp [List.findIdx?] at h
  | cons p rest ih =>
    intro h
    by_cases h1 : isRefsHeader p
    · simp [headerScorePair, h1]
    · by_cases h2 : isWCHeader p
      · simp [headerScorePair, h1, h2]
      · rw [headerScorePair]
        rw [if_neg h1, if_neg h2]
        apply ih
        have h3 : isHeaderLine p = false := by
          simp [isHeaderLine, h1, h2]
        rw [List.findIdx?_cons, h3] at h
        simpa using h

theorem findIdx_of_section_nonempty (paragraphs : List (List Char))
    (h : find_references_section paragraphs ≠ []) :
    (paragraphs.findIdx? isHeaderLine).isSome := by
  unfold find_references_section at h
  cases hf : paragraphs.findIdx? isHeaderLine with
  | none => rw [hf] at h; simp at h
  | some i => simp [hf]

theorem styleScores_pos (paragraphs : List (List Char))
    (h : (paragraphs.findIdx? isHeaderLine).isSome) :
    0 < (styleScores paragraphs (find_references_section paragraphs)).1 +
        (styleScores paragraphs (find_references_section paragraphs)).2 := by
  have h2 := headerScorePair_pos paragraphs h
  unfold styleScores
  dsimp only
  omega

/-- C5: when no reference-section header is found or the located section
has fewer than 2 entries, the detector returns `(UNKNOWN, 0)`; otherwise
the total score is positive (no division by zero), a tie of the two style
scores yields `(UNKNOWN, 50)`, and a strict winner yields that style with
confidence `winner / total * 100`. -/
theorem c5_detect_cases (paragraphs : List (List Char)) (a b : ℕ)
    (hs : styleScores paragraphs (find_references_section paragraphs) = (a, b)) :
    (find_references_section paragraphs = [] ∨
        (find_references_section paragraphs).length < 2 →
      detect_citation_style paragraphs = (Style.UNKNOWN, 0)) ∧
    (¬(find_references_section paragraphs = [] ∨
        (find_references_section paragraphs).length < 2) →
      0 < a + b ∧
      (a = b → detect_citation_style paragraphs = (Style.UNKNOWN, 50)) ∧
      (b < a → detect_citation_style paragraphs =
        (Style.APA, ((a : ℚ) / ((a : ℚ) + (b : ℚ))) * 100)) ∧
      (a < b → detect_citation_style paragraphs =
        (Style.MLA, ((b : ℚ) / ((a : ℚ) + (b : ℚ))) * 100))) := by
  constructor
  · intro hg
    unfold detect_citation_style
    rw [if_pos hg]
  · intro hg
    have hne : find_references_section paragraphs ≠ [] := fun h => hg (Or.inl h)
    have hpos := styleScores_pos paragraphs
      (findIdx_of_section_nonempty paragraphs hne)
    rw [hs] at hpos
    dsimp only at hpos
    refine ⟨hpos, ?_, ?_, ?_⟩
    · intro hab
      unfold detect_citation_style
      rw [if_neg hg]
      dsimp only
      rw [hs]
      dsimp only
      rw [if_neg (by omega : ¬ a + b = 0)]
      rw [if_neg (by omega : ¬ a > b), if_neg (by omega : ¬ b > a)]
    · intro hba
      unfold detect_citation_style
      rw [if_neg hg]
      dsimp only
      rw [hs]
      dsimp only
      rw [if_neg (by omega : ¬ a + b = 0)]
      rw [if_pos (by omega : a > b)]
      refine Prod.ext rfl ?_
      push_cast
      ring
    · intro hab
      unfold detect_citation_style
      rw [if_neg hg]
      dsimp only
      rw [hs]
      dsimp only
      rw [if_neg (by omega : ¬ a + b = 0)]
      rw [if_neg (by omega : ¬ a > b), if_pos (by omega : b > a)]
      refine Prod.ext rfl ?_
      push_cast
      ring

theorem c5_witness :
    detect_citation_style c5Demo1 = (Style.UNKNOWN, 0) ∧
    detect_citation_style c5Demo2 = (Style.UNKNOWN, 50) ∧
    detect_citation_style c5Demo3 = (Style.APA, ((12 : ℚ) / ((12 : ℚ) + (0 : ℚ))) * 100) :=
  ⟨(c5_detect_cases c5Demo1 0 0 (by decide)).1 (by decide),
   ((c5_detect_cases c5Demo2 2 2 (by decide)).2 (by decide)).2.1 rfl,
   ((c5_detect_cases c5Demo3 12 0 (by decide)).2 (by decide)).2.2.1 (by decide)⟩

/-- C10: whenever the detector returns a definite style (`APA` or `MLA`),
the confidence is strictly greater than 50 and at most 100: the winning
score strictly exceeds the losing one and confidence is the winner's
share of the positive total. -/
theorem c10_definite_confidence (paragraphs : List (List Char)) (s : Style)
    (c : ℚ) (hd : detect_citation_style paragraphs = (s, c))
    (hsty : s = Style.APA ∨ s = Style.MLA) :
    50 < c ∧ c ≤ 100 := by
  unfold detect_citation_style at hd
  by_cases hg : find_references_section paragraphs = [] ∨
      (find_references_section paragraphs).length < 2
  · rw [if_pos hg] at hd
    rcases hsty with rfl | rfl <;>
      simpa using congrArg Prod.fst hd
  · rw [if_neg hg] at hd
    dsimp only at hd
    rcases hsp : styleScores paragraphs (find_references_section paragraphs)
      with ⟨a, b⟩
    rw [hsp] at hd
    dsimp only at hd
    by_cases h0 : a + b = 0
    · rw [if_pos h0] at hd
      rcases hsty with rfl | rfl <;>
        simpa using congrArg Prod.fst hd
    · rw [if_neg h0] at hd
      have hq : (0 : ℚ) < ((a : ℚ) + (b : ℚ)) := by
        have : 0 < a + b := Nat.pos_of_ne_zero h0
        push_cast
        exact_mod_cast this
      by_cases h1 : a > b
      · rw [if_pos h1] at hd
        have hc : ((a : ℚ) / ((a + b : ℕ) : ℚ)) * 100 = c := congrArg Prod.snd hd
        have hab : (b : ℚ) < (a : ℚ) := by exact_mod_cast h1
        push_cast at hc
        constructor
        · rw [← hc, div_mul_eq_mul_div, lt_div_iff hq]
          linarith
        · rw [← hc, div_mul_eq_mul_div, div_le_iff hq]
          linarith
      · by_cases h2 : b > a
        · rw [if_neg h1, if_pos h2] at hd
          have hc : ((b : ℚ) / ((a + b : ℕ) : ℚ)) * 100 = c := congrArg Prod.snd hd
          have hab : (a : ℚ) < (b : ℚ) := by exact_mod_cast h2
          push_cast at hc
          constructor
          · rw [← hc, div_mul_eq_mul_div, lt_div_iff hq]
            linarith
          · rw [← hc, div_mul_eq_mul_div, div_le_iff hq]
            linarith
        · rw [if_neg h1, if_neg h2] at hd
          rcases hsty with rfl | rfl <;>
            simpa using congrArg Prod.fst hd

theorem c10_witness : 50 < (100 : ℚ) ∧ (100 : ℚ) ≤ 100 :=
  c10_definite_confidence c5Demo3 Style.APA 100
    (by
      unfold detect_citation_style
      rw [if_neg (by decide : ¬(find_references_section c5Demo3 = [] ∨
        (find_references_section c5Demo3).length < 2))]
      dsimp only
      rw [show styleScores c5Demo3 (find_references_section c5Demo3) = (12, 0)
        from by decide]
      dsimp only
      norm_num)
    (Or.inl rfl)

/-! ## C8: year extraction as leftmost-index rules -/

theorem apaParenYearGrp_eq_spec :
    ∀ (l : List Char), apaParenYearGrp l = specApaParenYear l := by
  intro l
  induction l with
  | nil => rfl
  | cons c rest ih =>
    rw [apaParenYearGrp, specApaParenYear, List.length_cons,
      List.range_succ_eq_map, List.findSome?_cons]
    by_cases hb : parenYearAtHead (c :: rest)
    · simp [hb]
    · simp only [List.drop_zero, hb, if_false, ite_false]
      rw [List.findSome?_map]
      rw [ih, specApaParenYear]
      rfl

theorem findBare1920Go_eq :
    ∀ (l : List Char) (prev : Option Char),
      findBare1920Go prev l =
        (List.range l.length).findSome? (fun i =>
          if bare1920At (if i = 0 then prev else (l.drop (i - 1)).head?) (l.drop i)
          then some ((l.drop i).take 4) else none) := by
  intro l
  induction l with
  | nil => intro prev; rfl
  | cons c rest ih =>
    intro prev
    rw [findBare1920Go, List.length_cons, List.range_succ_eq_map,
      List.findSome?_cons]
    by_cases hb : bare1920At prev (c :: rest)
    · simp [hb]
    · rw [if_neg hb]
      have hf0 : (if bare1920At (if (0 : ℕ) = 0 then prev
            else ((c :: rest).drop (0 - 1)).head?) ((c :: rest).drop 0)
          then some (((c :: rest).drop 0).take 4) else none) = none := by
        show (if bare1920At prev (c :: rest) then some ((c :: rest).take 4)
          else none) = none
        exact if_neg hb
      rw [hf0, List.findSome?_map, ih (some c)]
      change List.findSome? _ (List.range rest.length) =
        List.findSome? _ (List.range rest.length)
      refine congrArg (fun f => List.findSome? f (List.range rest.length)) ?_
      funext i
      cases i with
      | zero => rfl
      | succ j => rfl

theorem findBare1920_eq_spec (l : List Char) :
    findBare1920 l = specBare1920 l := by
  rw [findBare1920, findBare1920Go_eq l none]
  rfl

/-- C8 (amended): the APA parser's `year` is the leftmost parenthesized
four-digit year (optional trailing lowercase letter), and when none exists
it falls back to the leftmost word-bounded four-digit run starting with
`19` or `20` (not an arbitrary 4-digit run); the MLA parser's `year` is
the leftmost such word-bounded `19`/`20` run within the final 50
characters of the entry. -/
theorem c8_year_extraction (l : List Char) :
    (parse_apa_reference l).year = ((specApaParenYear l).or (specBare1920 l)) ∧
    (parse_mla_reference l).year = specBare1920 (l.drop (l.length - 50)) := by
  constructor
  · show apaYear l = _
    rw [apaYear, apaParenYearGrp_eq_spec]
    cases specApaParenYear l with
    | some y => rfl
    | none => rw [Option.or, findBare1920_eq_spec]
  · show findBare1920 (l.drop (l.length - 50)) = _
    exact findBare1920_eq_spec _

/-! ## C1: well-formed APA entries -/

theorem eatDigitsN_nondigit (n : Nat) (c : Char) (cs : List Char)
    (h : isDigitCh c = false) : eatDigitsN (n + 1) (c :: cs) = none := by
  simp [eatDigitsN, h]

theorem eatDigitsN_append_val :
    ∀ (Y r : List Char), (∀ c ∈ Y, isDigitCh c = true) →
      (eatDigitsN Y.length (Y ++ r)).map Subtype.val = some r := by
  intro Y
  induction Y with
  | nil => intro r h; rfl
  | cons y Y ih =>
    intro r h
    have hy : isDigitCh y = true := h y (List.mem_cons_self y Y)
    rw [List.cons_append]
    show (eatDigitsN (Y.length + 1) (y :: (Y ++ r))).map Subtype.val = some r
    rw [eatDigitsN, if_pos hy]
    obtain ⟨⟨r2, hle⟩, ha, hval⟩ := Option.map_eq_some'.mp
      (ih r (fun c hc => h c (List.mem_cons_of_mem y hc)))
    dsimp only at hval
    subst hval
    rw [ha]
    rfl

theorem parenYearAtHead_false_of_nondigit (a : Char) (A tail : List Char)
    (hA : ∀ c ∈ A, isDigitCh c = false)
    (ht : ∀ c, tail.head? = some c → isDigitCh c = false) :
    parenYearAtHead (a :: (A ++ tail)) = false := by
  have hnone : eatDigitsN 4 (A ++ tail) = none := by
    cases A with
    | nil =>
      cases tail with
      | nil => rfl
      | cons t ts =>
        exact eatDigitsN_nondigit 3 t ts (ht t rfl)
    | cons c cs =>
      exact eatDigitsN_nondigit 3 c _ (hA c (List.mem_cons_self c cs))
  unfold parenYearAtHead
  split
  · rename_i rest heq
    rw [List.cons.injEq] at heq
    rw [← heq.2, hnone]
  · rfl

theorem apaParenYearGrp_append (A tail : List Char)
    (hA : ∀ c ∈ A, isDigitCh c = false)
    (ht : ∀ c, tail.head? = some c → isDigitCh c = false) :
    apaParenYearGrp (A ++ tail) = apaParenYearGrp tail := by
  induction A with
  | nil => rfl
  | cons a A ih =>
    rw [List.cons_append, apaParenYearGrp]
    have hpy := parenYearAtHead_false_of_nondigit a A tail
      (fun c hc => hA c (List.mem_cons_of_mem a hc)) ht
    rw [if_neg (by simp [hpy])]
    exact ih (fun c hc => hA c (List.mem_cons_of_mem a hc))

theorem apaParenYearGrp_fire (Y r : List Char) (hY4 : Y.length = 4)
    (hYd : ∀ c ∈ Y, isDigitCh c = true) :
    apaParenYearGrp ('(' :: (Y ++ ')' :: r)) = some Y := by
  obtain ⟨⟨r2, hle⟩, ha, hval⟩ := Option.map_eq_some'.mp
    (eatDigitsN_append_val Y (')' :: r) hYd)
  dsimp only at hval
  subst hval
  rw [hY4] at ha
  have hfire : parenYearAtHead ('(' :: (Y ++ ')' :: r)) = true := by
    have hlz : isLowerAZ ')' = false := by decide
    simp [parenYearAtHead, ha, hlz]
  rw [apaParenYearGrp, if_pos hfire]
  rw [Option.some.injEq]
  have : (Y ++ ')' :: r).take Y.length = Y := List.take_left Y (')' :: r)
  rw [hY4] at this
  exact this

theorem isPrefixOf_append_self :
    ∀ (Y r : List Char), Y.isPrefixOf (Y ++ r) = true := by
  intro Y r
  induction Y with
  | nil => simp [List.isPrefixOf]
  | cons y Y ih => simp [List.isPrefixOf, ih]

theorem strFindAux_skip (y0 : Char) (Y' : List Char)
    (hy0 : isDigitCh y0 = true) :
    ∀ (A tail : List Char) (i : Nat),
      (∀ c ∈ A, isDigitCh c = false) →
      strFindAux (y0 :: Y') (A ++ tail) i =
        strFindAux (y0 :: Y') tail (i + A.length) := by
  intro A
  induction A with
  | nil => intro tail i h; simp
  | cons a A ih =>
    intro tail i h
    have hne : (y0 == a) = false := by
      refine beq_eq_false_iff_ne.mpr ?_
      intro hcontra
      subst hcontra
      rw [h y0 (List.mem_cons_self y0 A)] at hy0
      cases hy0
    rw [List.cons_append, strFindAux]
    rw [if_neg (by simp [List.isPrefixOf, hne])]
    rw [ih tail (i + 1) (fun c hc => h c (List.mem_cons_of_mem a hc))]
    exact congrArg (strFindAux (y0 :: Y') tail)
      (by simp only [List.length_cons]; omega)

theorem stripPy_eq_self (c0 : Char) (M : List Char) (d : Char)
    (h0 : isSpacePy c0 = false) (hd : isSpacePy d = false) :
    stripPy (c0 :: (M ++ [d])) = c0 :: (M ++ [d]) := by
  rw [stripPy, List.dropWhile_cons, if_neg (by simp [h0])]
  rw [show c0 :: (M ++ [d]) = (c0 :: M) ++ [d] from rfl]
  rw [List.reverse_append]
  simp only [List.reverse_cons, List.reverse_nil, List.nil_append,
    List.singleton_append]
  rw [List.dropWhile_cons, if_neg (by simp [hd])]
  simp

theorem rstripP_append_drop (p : Char → Bool) (A : List Char) (s t : Char)
    (hs : p s = true) (ht : p t = true) :
    rstripP p (A ++ [s, t]) = rstripP p A := by
  rw [rstripP, rstripP]
  have hrev : (A ++ [s, t]).reverse = t :: s :: A.reverse := by simp
  rw [hrev, List.dropWhile_cons, if_pos (by simp [ht]),
    List.dropWhile_cons, if_pos (by simp [hs])]

theorem rstripP_ne_nil (p : Char → Bool) (c0 : Char) (A' : List Char)
    (h : p c0 = false) : rstripP p (c0 :: A') ≠ [] := by
  rw [rstripP]
  intro hcontra
  have h2 : (c0 :: A').reverse.dropWhile p = [] := by
    have h3 := congrArg List.reverse hcontra
    simpa using h3
  have h4 := (List.dropWhile_eq_nil_iff.mp h2) c0 (by simp)
  rw [h] at h4
  cases h4

theorem rstripP_prefix_of (p : Char → Bool) (A : List Char) :
    ∃ t, A = rstripP p A ++ t := by
  refine ⟨(A.reverse.takeWhile p).reverse, ?_⟩
  rw [rstripP]
  calc A = A.reverse.reverse := by rw [List.reverse_reverse]
  _ = (A.reverse.takeWhile p ++ A.reverse.dropWhile p).reverse := by
        rw [List.takeWhile_append_dropWhile]
  _ = (A.reverse.dropWhile p).reverse ++ (A.reverse.takeWhile p).reverse := by
        rw [List.reverse_append]

/-- C1: for a well-formed APA entry `Authors (YYYY). Title. Source.` —
authors non-empty, digit-free, not opening with strippable punctuation or
whitespace, year exactly four digits — the APA parser extracts the four
digits as `year`, and `authors` is non-empty, equal to the pre-year text
with the trailing punctuation run stripped, hence a prefix of the
pre-year text. -/
theorem c1_apa_wellformed (c0 : Char) (A' Y T : List Char)
    (hc0 : authTrimCh c0 = false)
    (hAd : ∀ c ∈ c0 :: A', isDigitCh c = false)
    (hY4 : Y.length = 4) (hYd : ∀ c ∈ Y, isDigitCh c = true) :
    (parse_apa_reference
        ((c0 :: A') ++ ' ' :: '(' :: (Y ++ ')' :: '.' :: ' ' :: T))).year =
      some Y ∧
    (parse_apa_reference
        ((c0 :: A') ++ ' ' :: '(' :: (Y ++ ')' :: '.' :: ' ' :: T))).authors =
      some (rstripP authTrimCh (c0 :: A')) ∧
    rstripP authTrimCh (c0 :: A') ≠ [] ∧
    ∃ t, c0 :: A' = rstripP authTrimCh (c0 :: A') ++ t := by
  have hsp : isSpacePy c0 = false := by
    revert hc0
    unfold authTrimCh
    cases isSpacePy c0 <;> simp
  set ref := (c0 :: A') ++ ' ' :: '(' :: (Y ++ ')' :: '.' :: ' ' :: T)
    with href
  have hyear : apaYear ref = some Y := by
    have h1 : apaParenYearGrp ref = some Y := by
      have hdecomp : ref =
          ((c0 :: A') ++ [' ']) ++ ('(' :: (Y ++ ')' :: '.' :: ' ' :: T)) := by
        rw [href]; simp
      rw [hdecomp, apaParenYearGrp_append _ _ ?_ ?_]
      · exact apaParenYearGrp_fire Y ('.' :: ' ' :: T) hY4 hYd
      · intro c hc
        rcases List.mem_append.mp hc with h | h
        · exact hAd c h
        · rw [List.mem_singleton] at h; subst h; decide
      · intro c hc
        rw [List.head?_cons, Option.some.injEq] at hc
        subst hc; decide
    rw [apaYear, h1]
  have hfind : strFind ref Y = some (A'.length + 3) := by
    cases Y with
    | nil => simp at hY4
    | cons y0 Y' =>
      have hy0 : isDigitCh y0 = true := hYd y0 (List.mem_cons_self y0 Y')
      have hdecomp : ref =
          ((c0 :: A') ++ [' ', '(']) ++ ((y0 :: Y') ++ ')' :: '.' :: ' ' :: T) := by
        rw [href]; simp
      rw [strFind, hdecomp, strFindAux_skip y0 Y' hy0 _ _ 0 ?_]
      · rw [strFindAux.eq_def, if_pos (isPrefixOf_append_self (y0 :: Y') _)]
        rw [Option.some.injEq]
        simp [List.length_append]
      · intro c hc
        rcases List.mem_append.mp hc with h | h
        · exact hAd c h
        · simp only [List.mem_cons, List.not_mem_nil, or_false] at h
          rcases h with rfl | rfl <;> decide
  have hauth : apaAuthors ref (some Y) = some (rstripP authTrimCh (c0 :: A')) := by
    rw [apaAuthors]
    rw [hfind]
    dsimp only
    rw [if_pos (by omega : 0 < A'.length + 3)]
    have htake : ref.take (A'.length + 3) = (c0 :: A') ++ [' ', '('] := by
      have hdecomp : ref =
          ((c0 :: A') ++ [' ', '(']) ++ (Y ++ ')' :: '.' :: ' ' :: T) := by
        rw [href]; simp
      rw [hdecomp]
      exact List.take_left' (by simp)
    rw [htake]
    rw [show (c0 :: A') ++ [' ', '('] = c0 :: ((A' ++ [' ']) ++ ['(']) by simp]
    rw [stripPy_eq_self c0 (A' ++ [' ']) '(' hsp (by decide)]
    rw [show c0 :: ((A' ++ [' ']) ++ ['(']) = (c0 :: A') ++ [' ', '('] by simp]
    rw [rstripP_append_drop authTrimCh (c0 :: A') ' ' '(' (by decide) (by decide)]
    rw [if_pos]
    exact rstripP_ne_nil authTrimCh c0 A' hc0
  refine ⟨hyear, ?_, rstripP_ne_nil authTrimCh c0 A' hc0,
    rstripP_prefix_of authTrimCh (c0 :: A')⟩
  show apaAuthors ref (apaYear ref) = _
  rw [hyear]
  exact hauth

theorem c1_witness :
    (parse_apa_reference (str "Author, I. N. (2020). Title. Source.")).year =
      some (str "2020") ∧
    (parse_apa_reference (str "Author, I. N. (2020). Title. Source.")).authors =
      some (str "Author, I. N") := by
  have h := c1_apa_wellformed 'A' (str "uthor, I. N.") (str "2020")
    (str "Title. Source.") (by decide) (by decide) (by decide) (by decide)
  exact ⟨h.1, h.2.1⟩

/-! ## C7: normalized shapes are fixed points of normalize_author -/

theorem normChar_not_space (c : Char) (h : normChar c = true) :
    isSpacePy c = false := by
  cases hs : isSpacePy c
  · rfl
  · exfalso
    rcases (by simpa [isSpacePy] using hs :
        c = ' ' ∨ c = '\t' ∨ c = '\n' ∨ c = '\x0d' ∨ c = '\x0b' ∨ c = '\x0c')
      with rfl | rfl | rfl | rfl | rfl | rfl <;>
      exact absurd h (by decide)

theorem normChar_not_upper (c : Char) (h : normChar c = true) :
    isUpperAZ c = false := by
  cases hu : isUpperAZ c
  · rfl
  · exfalso
    have hA : 'A' ≤ c ∧ c ≤ 'Z' := by simpa [isUpperAZ] using hu
    rcases (by simpa [normChar, isLowerAZ, isDigitCh] using h :
        (('a' ≤ c ∧ c ≤ 'z') ∨ ('0' ≤ c ∧ c ≤ '9')) ∨ c = '-') with (h1 | h1) | rfl
    · exact absurd (le_trans h1.1 hA.2) (by decide)
    · exact absurd (le_trans hA.1 h1.2) (by decide)
    · exact absurd hA (by decide)

theorem toLowerPy_id (c : Char) (h : isUpperAZ c = false) : toLowerPy c = c := by
  rw [toLowerPy, if_neg (by simp [h])]

theorem ciIs_norm (c p : Char) (h : normChar c = true) (hci : ciIs c p = true) :
    c = p := by
  rw [ciIs, toLowerPy_id c (normChar_not_upper c h)] at hci
  exact of_decide_eq_true hci

theorem normChar_ne (c d : Char) (h : normChar c = true) (hd : normChar d = false) :
    c ≠ d := fun heq => by subst heq; rw [h] at hd; cases hd

theorem eatWs1_nonspace (c : Char) (X : List Char) (h : isSpacePy c = false) :
    eatWs1 (c :: X) = none := by
  show eatRun1 isSpacePy (c :: X) = none
  rw [eatRun1, if_neg (by simp [h])]

theorem eatWs1_nil : eatWs1 [] = none := rfl

theorem eatCh_false (p : Char → Bool) (c : Char) (X : List Char)
    (h : p c = false) : eatCh p (c :: X) = none := by
  rw [eatCh, if_neg (by simp [h])]

theorem eatLitCI_one (p c : Char) (X : List Char) (h : ciIs c p = true) :
    eatLitCI [p] (c :: X) = some ⟨X, by simp only [List.length_cons]; omega⟩ := by
  rw [eatLitCI, if_pos h]
  rfl

theorem eatLitCI_two (p1 p2 c1 c2 : Char) (X : List Char)
    (h1 : ciIs c1 p1 = true) (h2 : ciIs c2 p2 = true) :
    eatLitCI [p1, p2] (c1 :: c2 :: X) =
      some ⟨X, by simp only [List.length_cons]; omega⟩ := by
  rw [eatLitCI, if_pos h1, eatLitCI_one p2 c2 X h2]

theorem matchEtAlAt_nonspace (c : Char) (t : List Char)
    (h : isSpacePy c = false) : matchEtAlAt (c :: t) = none := by
  rw [matchEtAlAt, eatWs1_nonspace c t h]

theorem matchConnAt_nonspace (c : Char) (t : List Char)
    (h : isSpacePy c = false) : matchConnAt (c :: t) = none := by
  rw [matchConnAt, eatWs1_nonspace c t h]

theorem matchEtAlAt_nil_none : matchEtAlAt [] = none := rfl

theorem matchConnAt_nil_none : matchConnAt [] = none := rfl

theorem matchEtAlAt_sp_none (c1 : Char) (w' tail : List Char)
    (hchars : ∀ c ∈ c1 :: w', normChar c = true)
    (hne : c1 :: w' ≠ str "et")
    (htail : tail = [] ∨ tail.head? = some ' ') :
    matchEtAlAt (' ' :: (c1 :: (w' ++ tail))) = none := by
  have hc1 : normChar c1 = true := hchars c1 (List.mem_cons_self _ _)
  have hws : eatWs1 (' ' :: (c1 :: (w' ++ tail))) =
      some ⟨c1 :: (w' ++ tail), by simp only [List.length_cons]; omega⟩ := by
    show eatRun1 isSpacePy (' ' :: (c1 :: (w' ++ tail))) = _
    rw [eatRun1, if_pos (by decide : isSpacePy ' ' = true)]
    rw [Option.some.injEq]
    refine Subtype.ext ?_
    show List.dropWhile isSpacePy (c1 :: (w' ++ tail)) = c1 :: (w' ++ tail)
    rw [List.dropWhile_cons, if_neg (by simp [normChar_not_space c1 hc1])]
  rw [matchEtAlAt, hws]
  dsimp only
  rw [show str "et" = ['e', 't'] from rfl]
  cases w' with
  | nil =>
    rw [List.nil_append]
    by_cases hci1 : ciIs c1 'e'
    · rw [eatLitCI, if_pos hci1]
      have hnone : eatLitCI ['t'] tail = none := by
        rcases htail with rfl | hh
        · rfl
        · obtain ⟨t', rfl⟩ : ∃ t', tail = ' ' :: t' := by
            cases tail with
            | nil => cases hh
            | cons a b =>
              rw [List.head?_cons, Option.some.injEq] at hh
              subst hh
              exact ⟨b, rfl⟩
          rw [eatLitCI, if_neg (by decide)]
      rw [hnone]
    · rw [eatLitCI, if_neg hci1]
  | cons c2 w'' =>
    rw [List.cons_append]
    by_cases hci1 : ciIs c1 'e'
    · by_cases hci2 : ciIs c2 't'
      · have hc1e := ciIs_norm c1 'e' hc1 hci1
        have hc2t := ciIs_norm c2 't' (hchars c2 (by simp)) hci2
        subst hc1e
        subst hc2t
        cases w'' with
        | nil => exact absurd rfl hne
        | cons c3 w3 =>
          rw [List.cons_append]
          rw [eatLitCI_two 'e' 't' 'e' 't' (c3 :: (w3 ++ tail)) hci1 hci2]
          dsimp only
          rw [eatWs1_nonspace c3 _
            (normChar_not_space c3 (hchars c3 (by simp)))]
      · rw [eatLitCI, if_pos hci1, eatLitCI, if_neg hci2]
    · rw [eatLitCI, if_neg hci1]

theorem matchConnAt_sp_none (c1 : Char) (w' tail : List Char)
    (hchars : ∀ c ∈ c1 :: w', normChar c = true)
    (hne : c1 :: w' ≠ str "and")
    (htail : tail = [] ∨ tail.head? = some ' ') :
    matchConnAt (' ' :: (c1 :: (w' ++ tail))) = none := by
  have hc1 : normChar c1 = true := hchars c1 (List.mem_cons_self _ _)
  have hws : eatWs1 (' ' :: (c1 :: (w' ++ tail))) =
      some ⟨c1 :: (w' ++ tail), by simp only [List.length_cons]; omega⟩ := by
    show eatRun1 isSpacePy (' ' :: (c1 :: (w' ++ tail))) = _
    rw [eatRun1, if_pos (by decide : isSpacePy ' ' = true)]
    rw [Option.some.injEq]
    refine Subtype.ext ?_
    show List.dropWhile isSpacePy (c1 :: (w' ++ tail)) = c1 :: (w' ++ tail)
    rw [List.dropWhile_cons, if_neg (by simp [normChar_not_space c1 hc1])]
  rw [matchConnAt, hws]
  dsimp only
  have hamp : eatCh (fun c => c = '&') (c1 :: (w' ++ tail)) = none := by
    refine eatCh_false _ _ _ ?_
    simp only [decide_eq_false_iff_not]
    exact normChar_ne c1 '&' hc1 (by decide)
  rw [hamp]
  rw [show str "and" = ['a', 'n', 'd'] from rfl]
  by_cases hci1 : ciIs c1 'a'
  · rw [eatLitCI, if_pos hci1]
    cases w' with
    | nil =>
      rw [List.nil_append]
      have hnone : eatLitCI ['n', 'd'] tail = none := by
        rcases htail with rfl | hh
        · rfl
        · obtain ⟨t', rfl⟩ : ∃ t', tail = ' ' :: t' := by
            cases tail with
            | nil => cases hh
            | cons a b =>
              rw [List.head?_cons, Option.some.injEq] at hh
              subst hh
              exact ⟨b, rfl⟩
          rw [eatLitCI, if_neg (by decide)]
      rw [hnone]
    | cons c2 w'' =>
      rw [List.cons_append]
      by_cases hci2 : ciIs c2 'n'
      · rw [eatLitCI, if_pos hci2]
        cases w'' with
        | nil =>
          rw [List.nil_append]
          have hnone : eatLitCI ['d'] tail = none := by
            rcases htail with rfl | hh
            · rfl
            · obtain ⟨t', rfl⟩ : ∃ t', tail = ' ' :: t' := by
                cases tail with
                | nil => cases hh
                | cons a b =>
                  rw [List.head?_cons, Option.some.injEq] at hh
                  subst hh
                  exact ⟨b, rfl⟩
              rw [eatLitCI, if_neg (by decide)]
          rw [hnone]
        | cons c3 w3 =>
          rw [List.cons_append]
          by_cases hci3 : ciIs c3 'd'
          · have hc1a := ciIs_norm c1 'a' hc1 hci1
            have hc2n := ciIs_norm c2 'n' (hchars c2 (by simp)) hci2
            have hc3d := ciIs_norm c3 'd' (hchars c3 (by simp)) hci3
            subst hc1a
            subst hc2n
            subst hc3d
            cases w3 with
            | nil => exact absurd rfl hne
            | cons c4 w4 =>
              rw [List.cons_append]
              rw [eatLitCI_one 'd' 'd' (c4 :: (w4 ++ tail)) hci3]
              dsimp only
              rw [eatWs1_nonspace c4 _
                (normChar_not_space c4 (hchars c4 (by simp)))]
          · rw [eatLitCI, if_neg hci3]
      · rw [eatLitCI, if_neg hci2]
  · rw [eatLitCI, if_neg hci1]

theorem suffix_append_cases {α : Type} :
    ∀ (a b t : List α), t <:+ a ++ b →
      t <:+ b ∨ ∃ s, s <:+ a ∧ s ≠ [] ∧ t = s ++ b := by
  intro a
  induction a with
  | nil => intro b t ht; exact Or.inl (by simpa using ht)
  | cons x a ih =>
    intro b t ht
    rw [List.cons_append] at ht
    rcases List.suffix_cons_iff.mp ht with rfl | h2
    · exact Or.inr ⟨x :: a, List.suffix_refl _, by simp, by rw [List.cons_append]⟩
    · rcases ih b t h2 with h3 | ⟨s, hs1, hs2, hs3⟩
      · exact Or.inl h3
      · exact Or.inr ⟨s, hs1.trans (List.suffix_cons x a), hs2, hs3⟩

theorem joinWords_chars :
    ∀ (ws : List (List Char)), (∀ w ∈ ws, ∀ c ∈ w, normChar c = true) →
      ∀ c ∈ joinWords ws, normChar c = true ∨ c = ' ' := by
  intro ws
  induction ws with
  | nil => intro h c hc; cases hc
  | cons w ws ih =>
    intro h c hc
    cases ws with
    | nil => exact Or.inl (h w (List.mem_cons_self _ _) c hc)
    | cons w2 ws2 =>
      rw [show joinWords (w :: w2 :: ws2) = w ++ ' ' :: joinWords (w2 :: ws2)
        from rfl] at hc
      rcases List.mem_append.mp hc with h1 | h1
      · exact Or.inl (h w (List.mem_cons_self _ _) c h1)
      · rcases List.mem_cons.mp h1 with rfl | h2
        · exact Or.inr rfl
        · exact ih (fun w' hw' => h w' (List.mem_cons_of_mem _ hw')) c h2

theorem joinWords_suffix_none :
    ∀ (ws : List (List Char)), (∀ w ∈ ws, NormWord w) →
      ∀ t, t <:+ joinWords ws →
        matchEtAlAt t = none ∧ matchConnAt t = none := by
  intro ws
  induction ws with
  | nil =>
    intro h t ht
    rw [List.suffix_nil.mp ht]
    exact ⟨rfl, rfl⟩
  | cons w ws ih =>
    intro h t ht
    obtain ⟨hlen, hchars, het, hand⟩ := h w (List.mem_cons_self _ _)
    obtain ⟨c1, w', rfl⟩ : ∃ c1 w', w = c1 :: w' := by
      cases w with
      | nil => simp at hlen
      | cons a b => exact ⟨a, b, rfl⟩
    cases ws with
    | nil =>
      cases t with
      | nil => exact ⟨rfl, rfl⟩
      | cons d t' =>
        have hd : d ∈ c1 :: w' := ht.subset (List.mem_cons_self d t')
        have hds : isSpacePy d = false := normChar_not_space d (hchars d hd)
        exact ⟨matchEtAlAt_nonspace d t' hds, matchConnAt_nonspace d t' hds⟩
    | cons w2 ws2 =>
      rw [show joinWords ((c1 :: w') :: w2 :: ws2) =
          (c1 :: w') ++ ' ' :: joinWords (w2 :: ws2) from rfl] at ht
      rcases suffix_append_cases _ _ _ ht with h1 | ⟨s, hs, hsne, rfl⟩
      · rcases List.suffix_cons_iff.mp h1 with rfl | h2
        · obtain ⟨hlen2, hchars2, het2, hand2⟩ := h w2 (by simp)
          obtain ⟨c2, w2', rfl⟩ : ∃ a b, w2 = a :: b := by
            cases w2 with
            | nil => simp at hlen2
            | cons a b => exact ⟨a, b, rfl⟩
          cases ws2 with
          | nil =>
            rw [show joinWords [c2 :: w2'] = c2 :: w2' from rfl,
              show (c2 :: w2' : List Char) = c2 :: (w2' ++ []) by simp]
            exact ⟨matchEtAlAt_sp_none c2 w2' [] hchars2 het2 (Or.inl rfl),
                   matchConnAt_sp_none c2 w2' [] hchars2 hand2 (Or.inl rfl)⟩
          | cons w3 ws3 =>
            rw [show joinWords ((c2 :: w2') :: w3 :: ws3) =
                c2 :: (w2' ++ ' ' :: joinWords (w3 :: ws3)) from rfl]
            exact ⟨matchEtAlAt_sp_none c2 w2' _ hchars2 het2 (Or.inr rfl),
                   matchConnAt_sp_none c2 w2' _ hchars2 hand2 (Or.inr rfl)⟩
        · exact ih (fun w' hw' => h w' (List.mem_cons_of_mem _ hw')) t h2
      · obtain ⟨d, s', rfl⟩ : ∃ a b, s = a :: b := by
          cases s with
          | nil => exact absurd rfl hsne
          | cons a b => exact ⟨a, b, rfl⟩
        have hd : d ∈ c1 :: w' := hs.subset (List.mem_cons_self _ _)
        have hds : isSpacePy d = false := normChar_not_space d (hchars d hd)
        rw [List.cons_append]
        exact ⟨matchEtAlAt_nonspace d _ hds, matchConnAt_nonspace d _ hds⟩

theorem removeParensGo_id :
    ∀ (fuel : Nat) (l : List Char), (∀ c ∈ l, c ≠ '(') →
      removeParensGo fuel l = l := by
  intro fuel
  induction fuel with
  | zero => intro l h; cases l <;> rfl
  | succ n ih =>
    intro l h
    cases l with
    | nil => rfl
    | cons c rest =>
      rw [removeParensGo,
        if_neg (fun hc => h c (List.mem_cons_self _ _) hc.1),
        ih rest (fun c hc => h c (List.mem_cons_of_mem _ hc))]

theorem removeEtAlGo_id :
    ∀ (fuel : Nat) (l : List Char), (∀ t, t <:+ l → matchEtAlAt t = none) →
      removeEtAlGo fuel l = l := by
  intro fuel
  induction fuel with
  | zero => intro l h; cases l <;> rfl
  | succ n ih =>
    intro l h
    cases l with
    | nil => rfl
    | cons c rest =>
      rw [removeEtAlGo, h (c :: rest) (List.suffix_refl _),
        ih rest (fun t ht => h t (ht.trans (List.suffix_cons c rest)))]

theorem replaceConnGo_id :
    ∀ (fuel : Nat) (l : List Char), (∀ t, t <:+ l → matchConnAt t = none) →
      replaceConnGo fuel l = l := by
  intro fuel
  induction fuel with
  | zero => intro l h; cases l <;> rfl
  | succ n ih =>
    intro l h
    cases l with
    | nil => rfl
    | cons c rest =>
      rw [replaceConnGo, h (c :: rest) (List.suffix_refl _),
        ih rest (fun t ht => h t (ht.trans (List.suffix_cons c rest)))]

theorem matchCapDot_none (l : List Char) (h : ∀ c ∈ l, isUpperAZ c = false) :
    matchCapDot l = none := by
  rw [matchCapDot.eq_def]
  cases l with
  | nil => rfl
  | cons c rest =>
    dsimp only
    rw [if_neg (by simp [h c (List.mem_cons_self c rest)])]

theorem removeInitialsGo_id :
    ∀ (fuel : Nat) (l : List Char), (∀ c ∈ l, isUpperAZ c = false) →
      removeInitialsGo fuel l = l := by
  intro fuel
  induction fuel with
  | zero => intro l h; cases l <;> rfl
  | succ n ih =>
    intro l h
    cases l with
    | nil => rfl
    | cons c rest =>
      rw [removeInitialsGo]
      by_cases hc : isSpacePy c ∨ c = ','
      · rw [if_pos hc,
          matchCapDot_none rest (fun d hd => h d (List.mem_cons_of_mem _ hd))]
        rw [ih rest (fun d hd => h d (List.mem_cons_of_mem _ hd))]
      · rw [if_neg hc, ih rest (fun d hd => h d (List.mem_cons_of_mem _ hd))]

theorem splitOnComma_nocomma :
    ∀ (l : List Char), (∀ c ∈ l, c ≠ ',') → splitOnComma l = [l] := by
  intro l
  induction l with
  | nil => intro h; rfl
  | cons c rest ih =>
    intro h
    rw [splitOnComma, if_neg (h c (List.mem_cons_self _ _)),
      ih (fun d hd => h d (List.mem_cons_of_mem _ hd))]

theorem getLast?_mem_of (l : List Char) (c : Char) (h : l.getLast? = some c) :
    c ∈ l := by
  rw [← List.head?_reverse] at h
  cases hl : l.reverse with
  | nil => rw [hl] at h; cases h
  | cons a t =>
    rw [hl, List.head?_cons, Option.some.injEq] at h
    subst h
    have hm : a ∈ l.reverse := by rw [hl]; exact List.mem_cons_self _ _
    simpa using hm

theorem getLast?_append_right (l1 l2 : List Char) (h : l2 ≠ []) :
    (l1 ++ l2).getLast? = l2.getLast? := by
  rw [← List.head?_reverse, ← List.head?_reverse, List.reverse_append]
  cases hl : l2.reverse with
  | nil => exact absurd (by simpa using hl) h
  | cons a t => rw [List.cons_append, List.head?_cons, List.head?_cons]

theorem joinWords_ne_nil (w : List Char) (ws : List (List Char)) (h : w ≠ []) :
    joinWords (w :: ws) ≠ [] := by
  cases ws with
  | nil => exact h
  | cons w2 ws2 =>
    rw [show joinWords (w :: w2 :: ws2) = w ++ ' ' :: joinWords (w2 :: ws2)
      from rfl]
    simp

theorem joinWords_head_mem (w : List Char) (ws : List (List Char)) (c : Char)
    (hne : w ≠ []) (h : (joinWords (w :: ws)).head? = some c) : c ∈ w := by
  obtain ⟨a, w', rfl⟩ : ∃ a w', w = a :: w' := by
    cases w with
    | nil => exact absurd rfl hne
    | cons a b => exact ⟨a, b, rfl⟩
  cases ws with
  | nil =>
    rw [show joinWords [a :: w'] = a :: w' from rfl, List.head?_cons,
      Option.some.injEq] at h
    subst h
    exact List.mem_cons_self _ _
  | cons w2 ws2 =>
    rw [show joinWords ((a :: w') :: w2 :: ws2) =
        (a :: w') ++ ' ' :: joinWords (w2 :: ws2) from rfl,
      List.cons_append, List.head?_cons, Option.some.injEq] at h
    subst h
    exact List.mem_cons_self _ _

theorem joinWords_getLast_mem :
    ∀ (ws : List (List Char)), (∀ w ∈ ws, w ≠ []) →
      ∀ c, (joinWords ws).getLast? = some c → ∃ w ∈ ws, c ∈ w := by
  intro ws
  induction ws with
  | nil => intro h c hc; cases hc
  | cons w ws ih =>
    intro h c hc
    cases ws with
    | nil => exact ⟨w, List.mem_cons_self _ _, getLast?_mem_of w c hc⟩
    | cons w2 ws2 =>
      rw [show joinWords (w :: w2 :: ws2) = w ++ ' ' :: joinWords (w2 :: ws2)
        from rfl] at hc
      rw [getLast?_append_right _ _ (by simp)] at hc
      have hjw : joinWords (w2 :: ws2) ≠ [] :=
        joinWords_ne_nil w2 ws2 (h w2 (by simp))
      rw [show (' ' :: joinWords (w2 :: ws2) : List Char) =
          [' '] ++ joinWords (w2 :: ws2) from rfl,
        getLast?_append_right _ _ hjw] at hc
      obtain ⟨w', hw', hc'⟩ :=
        ih (fun w' hw' => h w' (List.mem_cons_of_mem _ hw')) c hc
      exact ⟨w', List.mem_cons_of_mem _ hw', hc'⟩

theorem stripPy_id_of_ends (y : List Char)
    (h1 : ∀ c, y.head? = some c → isSpacePy c = false)
    (h2 : ∀ c, y.getLast? = some c → isSpacePy c = false) :
    stripPy y = y := by
  rw [stripPy]
  have hd : y.dropWhile isSpacePy = y := by
    cases y with
    | nil => rfl
    | cons a t => rw [List.dropWhile_cons, if_neg (by simp [h1 a rfl])]
  rw [hd]
  have hr : y.reverse.dropWhile isSpacePy = y.reverse := by
    cases hy : y.reverse with
    | nil => rfl
    | cons a t =>
      rw [List.dropWhile_cons, if_neg ?_]
      have hg : y.getLast? = some a := by
        rw [← List.head?_reverse, hy, List.head?_cons]
      simp [h2 a hg]
  rw [hr, List.reverse_reverse]

/-- C7 (amended): `normalize_author` is not idempotent in general (see the
counterexample), but every string already in normalized shape — words of
at least two normalized characters (lowercase letters, digits, hyphens),
none equal to the connector words `et` or `and`, joined by single spaces —
is a fixed point of `normalize_author`; in particular `normalize_author`
acts idempotently on such strings. -/
theorem c7_normal_fixed (y : List Char) (h : NormShape y) :
    normalize_author y = y := by
  obtain ⟨hw, hj⟩ := h
  cases hws : wordsOf y with
  | nil =>
    have hy : y = [] := by rw [hj, hws]; rfl
    subst hy
    rfl
  | cons w0 ws0 =>
    rw [hws] at hw hj
    have hw0 := hw w0 (List.mem_cons_self _ _)
    have hw0ne : w0 ≠ [] := by
      intro hnil
      rw [hnil] at hw0
      simp [NormWord] at hw0
    have hwne : ∀ w ∈ w0 :: ws0, w ≠ [] := by
      intro w hww hnil
      have := (hw w hww).1
      rw [hnil] at this
      simp at this
    have hchar : ∀ c ∈ y, normChar c = true ∨ c = ' ' := by
      rw [hj]
      exact joinWords_chars _ (fun w hww c hc => (hw w hww).2.1 c hc)
    have hyne : y ≠ [] := by
      rw [hj]
      exact joinWords_ne_nil w0 ws0 hw0ne
    have hhead : ∀ c, y.head? = some c → isSpacePy c = false := by
      intro c hc
      rw [hj] at hc
      exact normChar_not_space c (hw0.2.1 c (joinWords_head_mem w0 ws0 c hw0ne hc))
    have hlast : ∀ c, y.getLast? = some c → isSpacePy c = false := by
      intro c hc
      rw [hj] at hc
      obtain ⟨w', hw', hc'⟩ := joinWords_getLast_mem _ hwne c hc
      exact normChar_not_space c ((hw w' hw').2.1 c hc')
    have hstrip : stripPy y = y := stripPy_id_of_ends y hhead hlast
    have hsufx : ∀ t, t <:+ y → matchEtAlAt t = none ∧ matchConnAt t = none := by
      intro t ht
      rw [hj] at ht
      exact joinWords_suffix_none _ hw t ht
    have hnoparen : ∀ c ∈ y, c ≠ '(' := by
      intro c hc
      rcases hchar c hc with h1 | rfl
      · exact normChar_ne c '(' h1 (by decide)
      · decide
    have hnocomma : ∀ c ∈ y, c ≠ ',' := by
      intro c hc
      rcases hchar c hc with h1 | rfl
      · exact normChar_ne c ',' h1 (by decide)
      · decide
    have hnoupper : ∀ c ∈ y, isUpperAZ c = false := by
      intro c hc
      rcases hchar c hc with h1 | rfl
      · exact normChar_not_upper c h1
      · decide
    have e1 : removeParens y = y := by
      rw [removeParens]
      exact removeParensGo_id _ _ hnoparen
    have e2 : removeEtAl y = y := by
      rw [removeEtAl]
      exact removeEtAlGo_id _ _ (fun t ht => (hsufx t ht).1)
    have e3 : replaceConn y = y := by
      rw [replaceConn]
      exact replaceConnGo_id _ _ (fun t ht => (hsufx t ht).2)
    have e4 : splitOnComma y = [y] := splitOnComma_nocomma y hnocomma
    have e5 : removeInitials y = y := by
      rw [removeInitials.eq_def, matchCapDot_none y hnoupper]
      exact removeInitialsGo_id _ _ hnoupper
    have e6 : y.filter (fun c => ¬ (c = ',' ∨ c = '.' ∨ c = '\'')) = y := by
      rw [List.filter_eq_self]
      intro c hc
      rcases hchar c hc with h1 | rfl
      · simp only [decide_eq_true_eq]
        push_neg
        exact ⟨normChar_ne c ',' h1 (by decide), normChar_ne c '.' h1 (by decide),
          normChar_ne c '\'' h1 (by decide)⟩
      · decide
    have e7 : (w0 :: ws0).filter (fun w => 1 < w.length) = w0 :: ws0 := by
      rw [List.filter_eq_self]
      intro w hww
      have := (hw w hww).1
      simp only [decide_eq_true_eq]
      omega
    have e8 : (w0 :: ws0).map (List.map toLowerPy) = w0 :: ws0 := by
      rw [show (w0 :: ws0).map (List.map toLowerPy) =
          (w0 :: ws0).map id from List.map_congr_left ?_, List.map_id]
      intro w hww
      rw [show List.map toLowerPy w = List.map id w from List.map_congr_left ?_,
        List.map_id, id]
      intro c hc
      exact toLowerPy_id c (normChar_not_upper c ((hw w hww).2.1 c hc))
    simp only [normalize_author]
    rw [e1, e2, e3, e4, List.foldl_cons, List.foldl_nil]
    rw [hstrip, if_neg hyne, e5, e6, hws, ← hj, hws, List.nil_append, e7, e8,
      ← hj]

theorem c7_witness :
    normalize_author (str "smith jones") = str "smith jones" :=
  c7_normal_fixed (str "smith jones") (by unfold NormShape NormWord; decide)
